import Mathlib

/-!
Verification of the EREEA exploration-simulation core (a Rust program: an
autonomous-robot exoplanet exploration simulator).  The definitions below are a
shallow embedding of the program source:

* `src/types.rs`    → `TileType`, `RobotType`, `RobotMode`, `MAP_SIZE`
* `src/map.rs`      → `Map` with `get_tile`, `is_valid_position`, `consume_resource`
* `src/station.rs`  → `TerrainData`, `Station` with `try_create_robot`,
                      `share_knowledge`, `deposit_resources`, `get_status` (label part),
                      `get_exploration_percentage`, `is_mission_complete`
* `src/robot.rs`    → `Robot` with the A* path finder `find_path`, the perception
                      and movement helpers, and the per-tick state machine `update`
* `src/main.rs`     → the emergency-rescue step of the simulation loop (`rescue`)

Modelling conventions, used consistently:
* Rust `u32`/`usize` values are `Nat`; all arithmetic on them in the source is
  guarded so no overflow/underflow semantics are exercised.
* Rust `f32` values (robot energy and the exploration percentage) are modelled
  as exact rationals `ℚ`; floating-point rounding is not modelled.  No theorem
  below depends on the value of a rational comparison in a region where `f32`
  rounding could differ, except through hypotheses that fix the comparison.
* The 2D grids (`Vec<Vec<_>>` of fixed size `MAP_SIZE`) are total functions
  `Nat → Nat → _` indexed as `grid y x`, exactly like the `grid[y][x]` indexing
  of the source; every access in the source is bounds-guarded, and the
  embedding keeps the same guards.
* `rand::thread_rng` draws are modelled by an explicit oracle `Rng` passed to
  the functions that draw; every theorem holds for every oracle value.
* The `BinaryHeap` of the A* search pops some entry with minimal `f_cost`
  (the `Ord` instance reverses the comparison); the tie order among equal
  `f_cost` entries is unspecified in the source, and the embedding resolves
  ties deterministically (first minimal entry).  No property proved below
  depends on the tie order.
* Rust's stable `sort_by_key` is embedded as a stable structural insertion
  sort, which computes the same list for every key function.
-/

set_option maxRecDepth 20000

namespace Ereea

/-- Terrain kinds of the exploration map (`TileType` in `src/types.rs`). -/
inductive TileType where
  | Empty
  | Obstacle
  | Energy
  | Mineral
  | Scientific
deriving DecidableEq

/-- Robot specialisations (`RobotType` in `src/types.rs`). -/
inductive RobotType where
  | Explorer
  | EnergyCollector
  | MineralCollector
  | ScientificCollector
deriving DecidableEq

/-- Behavioural modes of the robot state machine (`RobotMode` in `src/types.rs`). -/
inductive RobotMode where
  | Exploring
  | Collecting
  | ReturnToStation
  | Idle
deriving DecidableEq

/-- Side length of the square map (`MAP_SIZE` in `src/types.rs`). -/
def MAP_SIZE : Nat := 20

/-- Per-cell exploration record (`TerrainData` in `src/station.rs`). -/
structure TerrainData where
  explored : Bool
  timestamp : Nat
  robot_id : Nat
  robot_type : RobotType
deriving DecidableEq

/-- The record every memory cell is initialised with (both in `Station::new`
and in `Robot::new`): unexplored, timestamp 0, robot id 0, Explorer type. -/
def defaultTerrain : TerrainData :=
  { explored := false, timestamp := 0, robot_id := 0, robot_type := RobotType.Explorer }

/-- The exploration map (`Map` in `src/map.rs`); the tile grid is a total
function indexed `tiles y x` like the `tiles[y][x]` of the source. -/
structure Map where
  tiles : Nat → Nat → TileType
  station_x : Nat
  station_y : Nat

/-- Tile lookup with the fail-safe bounds check of `Map::get_tile`:
out-of-bounds coordinates read as `Obstacle`. -/
def Map.get_tile (m : Map) (x y : Nat) : TileType :=
  if MAP_SIZE ≤ x ∨ MAP_SIZE ≤ y then TileType.Obstacle
  else m.tiles y x

/-- Traversability check of `Map::is_valid_position`: in bounds and not an
obstacle. -/
def Map.is_valid_position (m : Map) (x y : Nat) : Bool :=
  decide (x < MAP_SIZE) && decide (y < MAP_SIZE) && decide (m.tiles y x ≠ TileType.Obstacle)

/-- Resource harvesting on the map (`Map::consume_resource`): an in-bounds
resource tile becomes `Empty`; everything else is untouched. -/
def Map.consume_resource (m : Map) (x y : Nat) : Map :=
  if x < MAP_SIZE ∧ y < MAP_SIZE then
    match m.tiles y x with
    | TileType.Energy | TileType.Mineral | TileType.Scientific =>
      { m with tiles := fun yy xx => if yy = y ∧ xx = x then TileType.Empty else m.tiles yy xx }
    | _ => m
  else m

/-- All map cells as `(x, y)` pairs in the iteration order of the source
(`for y in 0..MAP_SIZE { for x in 0..MAP_SIZE { ... } }`). -/
def allCellsYX : List (Nat × Nat) :=
  (List.range MAP_SIZE).flatMap fun y => (List.range MAP_SIZE).map fun x => (x, y)

/-- Stable insertion step for `sortByKeyAsc`. -/
def insertByKeyAsc (key : α → Nat) (x : α) : List α → List α
  | [] => [x]
  | y :: ys => if key y < key x then y :: insertByKeyAsc key x ys else x :: y :: ys

/-- Stable ascending sort by a `Nat` key; computes the same list as the stable
`sort_by_key` of the source. -/
def sortByKeyAsc (key : α → Nat) : List α → List α
  | [] => []
  | x :: xs => insertByKeyAsc key x (sortByKeyAsc key xs)

/-- Stable insertion step for `sortByKeyDesc`. -/
def insertByKeyDesc (key : α → Nat) (x : α) : List α → List α
  | [] => [x]
  | y :: ys => if key x < key y then y :: insertByKeyDesc key x ys else x :: y :: ys

/-- Stable descending sort by a `Nat` key; computes the same list as the stable
`sort_by_key(... Reverse(key) ...)` of the source. -/
def sortByKeyDesc (key : α → Nat) : List α → List α
  | [] => []
  | x :: xs => insertByKeyDesc key x (sortByKeyDesc key xs)

/-- Manhattan-distance heuristic of the A* search (`Robot::heuristic`);
positions are `(x, y)` pairs. -/
def heuristic (a b : Nat × Nat) : Nat :=
  ((a.1 : Int) - (b.1 : Int)).natAbs + ((a.2 : Int) - (b.2 : Int)).natAbs

/-- Search node of the A* priority queue (`Node` in `src/robot.rs`). -/
structure Node where
  position : Nat × Nat
  g_cost : Nat
  f_cost : Nat
deriving DecidableEq

/-- Pop of the A* priority structure: removes the first entry with minimal
`f_cost` (the `BinaryHeap` of the source pops some minimal-`f_cost` entry;
its tie order is unspecified and irrelevant to every property proved here). -/
def popMin : List Node → Option (Node × List Node)
  | [] => none
  | n :: rest =>
    match popMin rest with
    | none => some (n, [])
    | some (m, restMinus) =>
      if n.f_cost ≤ m.f_cost then some (n, rest) else some (m, n :: restMinus)

/-- The eight neighbour offsets `(dx, dy)` in the enumeration order of the
source (`for dy in -1..=1 { for dx in -1..=1 { ... skip (0,0) ... } }`). -/
def neighborOffsets : List (Int × Int) :=
  [(-1, -1), (0, -1), (1, -1), (-1, 0), (1, 0), (-1, 1), (0, 1), (1, 1)]

/-- Mutable state of the A* loop: the open list and the `came_from` /
`g_score` hash maps of the source. -/
structure AState where
  openSet : List Node
  cameFrom : Nat × Nat → Option (Nat × Nat)
  gScore : Nat × Nat → Option Nat

/-- Processing of one neighbour offset inside the A* expansion: bounds check,
obstacle check, and the relax-and-push step guarded by
`!g_score.contains_key(&neighbor) || tentative_g_score < g_score[&neighbor]`. -/
def expandNeighbor (m : Map) (target curPos : Nat × Nat) (s : AState) (d : Int × Int) :
    AState :=
  let nx : Int := (curPos.1 : Int) + d.1
  let ny : Int := (curPos.2 : Int) + d.2
  if nx < 0 ∨ (MAP_SIZE : Int) ≤ nx ∨ ny < 0 ∨ (MAP_SIZE : Int) ≤ ny then s
  else
    let nb : Nat × Nat := (nx.toNat, ny.toNat)
    if ¬ m.is_valid_position nb.1 nb.2 then s
    else
      let tentative := (s.gScore curPos).getD 0 + 1
      let better :=
        match s.gScore nb with
        | none => true
        | some g => decide (tentative < g)
      if better then
        { openSet := ⟨nb, tentative, tentative + heuristic nb target⟩ :: s.openSet,
          cameFrom := fun p => if p = nb then some curPos else s.cameFrom p,
          gScore := fun p => if p = nb then some tentative else s.gScore p }
      else s

/-- Expansion of all eight neighbours of the popped node, in source order. -/
def astarExpand (m : Map) (target curPos : Nat × Nat) (s : AState) : AState :=
  neighborOffsets.foldl (expandNeighbor m target curPos) s

/-- Fuel for the path reconstruction walk; the walk strictly decreases the
`g_score` value, which is below `MAP_SIZE * MAP_SIZE + 1`. -/
def reconFuel : Nat := MAP_SIZE * MAP_SIZE + 2

/-- Reconstruction of the found path by walking the `came_from` chain back to
the start, prepending every visited node (`path.push_front` of the source).
The source loops until the start is reached; the fuel and the `none` fallback
only make the recursion structural, and are never hit from `find_path`. -/
def reconstructPath (cf : Nat × Nat → Option (Nat × Nat)) (start : Nat × Nat) :
    Nat → Nat × Nat → List (Nat × Nat) → List (Nat × Nat)
  | 0, _, acc => acc
  | fuel + 1, current, acc =>
    if current = start then acc
    else
      match cf current with
      | none => acc
      | some prev => reconstructPath cf start fuel prev (current :: acc)

/-- Fuel for the A* main loop.  The loop strictly decreases the measure
`astarPhi` below, whose initial value is below this constant, so the fuel
never runs out; it only makes the recursion structural. -/
def astarFuel : Nat := 200000

/-- Main loop of the A* search (`while let Some(current) = open_set.pop()`). -/
def astarLoop (m : Map) (start target : Nat × Nat) : Nat → AState → List (Nat × Nat)
  | 0, _ => []
  | fuel + 1, s =>
    match popMin s.openSet with
    | none => []
    | some (cur, rest) =>
      if cur.position = target then
        reconstructPath s.cameFrom start reconFuel target []
      else
        astarLoop m start target fuel (astarExpand m target cur.position { s with openSet := rest })

/-- The A* path finder `Robot::find_path` (the robot supplies its own position
as `start`): returns the ordered waypoint list, excluding the start and ending
at the target, or `[]` when the start is the target or no route exists. -/
def find_path (m : Map) (start target : Nat × Nat) : List (Nat × Nat) :=
  if start = target then []
  else
    astarLoop m start target astarFuel
      { openSet := [⟨start, 0, heuristic start target⟩],
        cameFrom := fun _ => none,
        gScore := fun p => if p = start then some 0 else none }

/-- The autonomous robot (`Robot` in `src/robot.rs`).  Energy is `f32` in the
source, modelled as `ℚ`; the pending path is the `path_to_station` deque with
its front at the list head. -/
structure Robot where
  x : Nat
  y : Nat
  energy : ℚ
  max_energy : ℚ
  minerals : Nat
  scientific_data : Nat
  robot_type : RobotType
  mode : RobotMode
  memory : Nat → Nat → TerrainData
  path_to_station : List (Nat × Nat)
  id : Nat
  home_station_x : Nat
  home_station_y : Nat
  last_sync_time : Nat
  exploration_complete_announced : Bool

/-- Role-determined energy capacity (`Robot::new`): Explorer 80, EnergyCollector
120, MineralCollector 100, ScientificCollector 60. -/
def maxEnergyFor : RobotType → ℚ
  | RobotType.Explorer => 80
  | RobotType.EnergyCollector => 120
  | RobotType.MineralCollector => 100
  | RobotType.ScientificCollector => 60

/-- Constructor `Robot::new_with_memory`: a robot at `(x, y)` with a preloaded
memory grid, full energy, empty inventory, `Exploring` mode. -/
def Robot.new_with_memory (x y : Nat) (rt : RobotType) (id station_x station_y : Nat)
    (memory : Nat → Nat → TerrainData) : Robot :=
  { x := x, y := y,
    energy := maxEnergyFor rt, max_energy := maxEnergyFor rt,
    minerals := 0, scientific_data := 0,
    robot_type := rt, mode := RobotMode.Exploring,
    memory := memory, path_to_station := [],
    id := id, home_station_x := station_x, home_station_y := station_y,
    last_sync_time := 0, exploration_complete_announced := false }

/-- The central station (`Station` in `src/station.rs`). -/
structure Station where
  energy_reserves : Nat
  collected_minerals : Nat
  collected_scientific_data : Nat
  global_memory : Nat → Nat → TerrainData
  conflict_count : Nat
  next_robot_id : Nat
  current_time : Nat

/-- Constructor `Station::new`: 100 energy, nothing collected, all memory
cells unexplored, robot ids starting at 1, time 0. -/
def Station.new : Station :=
  { energy_reserves := 100, collected_minerals := 0, collected_scientific_data := 0,
    global_memory := fun _ _ => defaultTerrain,
    conflict_count := 0, next_robot_id := 1, current_time := 0 }

/-- Clock advance `Station::tick`. -/
def Station.tick (st : Station) : Station :=
  { st with current_time := st.current_time + 1 }

/-- Count of explored cells in the global memory (the counting loop of
`Station::get_exploration_percentage`). -/
def Station.explored_count (st : Station) : Nat :=
  (allCellsYX.filter fun c => (st.global_memory c.2 c.1).explored).length

/-- Exploration percentage `Station::get_exploration_percentage`
(`f32` in the source, modelled as `ℚ`). -/
def Station.get_exploration_percentage (st : Station) : ℚ :=
  ((st.explored_count : ℚ) / ((MAP_SIZE * MAP_SIZE : Nat) : ℚ)) * 100

/-- Count of map tiles of one kind (the resource-counting loop of
`Station::determine_needed_robot_type`). -/
def Map.count_tiles (m : Map) (t : TileType) : Nat :=
  (allCellsYX.filter fun c => m.get_tile c.1 c.2 = t).length

/-- Phased role-selection policy `Station::determine_needed_robot_type`. -/
def Station.determine_needed_robot_type (st : Station) (m : Map) : RobotType :=
  let exploration_percentage := st.get_exploration_percentage
  if exploration_percentage < 50 then RobotType.Explorer
  else
    let energy_count := m.count_tiles TileType.Energy
    let mineral_count := m.count_tiles TileType.Mineral
    let scientific_count := m.count_tiles TileType.Scientific
    if exploration_percentage < 80 then
      if 0 < energy_count ∧ (energy_count ≤ 3 ∨ st.energy_reserves < 100) then
        RobotType.EnergyCollector
      else if 0 < mineral_count ∧ (mineral_count ≤ 5 ∨ st.collected_minerals < 30) then
        RobotType.MineralCollector
      else RobotType.Explorer
    else if 0 < scientific_count ∧ 100 ≤ st.energy_reserves then
      RobotType.ScientificCollector
    else if 0 < energy_count then RobotType.EnergyCollector
    else if 0 < mineral_count then RobotType.MineralCollector
    else RobotType.Explorer

/-- Agent creation `Station::try_create_robot`: costs 50 energy and 15
minerals, deducted together only when both are affordable; otherwise no robot
is created and the station is unchanged. -/
def Station.try_create_robot (st : Station) (m : Map) : Option Robot × Station :=
  let energy_cost := 50
  let mineral_cost := 15
  if energy_cost ≤ st.energy_reserves ∧ mineral_cost ≤ st.collected_minerals then
    let robotType := st.determine_needed_robot_type m
    let st1 := { st with
      energy_reserves := st.energy_reserves - energy_cost,
      collected_minerals := st.collected_minerals - mineral_cost }
    let newRobot := Robot.new_with_memory m.station_x m.station_y robotType
      st1.next_robot_id m.station_x m.station_y st.global_memory
    (some newRobot, { st1 with next_robot_id := st1.next_robot_id + 1 })
  else (none, st)

/-- Merge of one cell during `Station::share_knowledge`: adopt the robot
record when the hub cell is unexplored, overwrite on a strictly newer robot
timestamp, otherwise keep the hub record. -/
def mergeCell (hub rob : TerrainData) : TerrainData :=
  if rob.explored then
    if hub.explored then (if hub.timestamp < rob.timestamp then rob else hub)
    else rob
  else hub

/-- Knowledge synchronisation `Station::share_knowledge`: when the robot is at
its home coordinates, merge its memory into the global memory cell by cell
(resolving conflicts by timestamp and counting the overwrites), then refresh
the robot memory from the merged global memory on every explored cell. -/
def Station.share_knowledge (st : Station) (r : Robot) : Station × Robot :=
  if r.x = r.home_station_x ∧ r.y = r.home_station_y then
    let conflicts :=
      (allCellsYX.filter fun c =>
        (r.memory c.2 c.1).explored && (st.global_memory c.2 c.1).explored &&
          decide ((st.global_memory c.2 c.1).timestamp < (r.memory c.2 c.1).timestamp)).length
    let changes_made :=
      allCellsYX.any fun c =>
        (r.memory c.2 c.1).explored &&
          (!(st.global_memory c.2 c.1).explored ||
            decide ((st.global_memory c.2 c.1).timestamp < (r.memory c.2 c.1).timestamp))
    let newHub : Nat → Nat → TerrainData := fun yy xx =>
      if yy < MAP_SIZE ∧ xx < MAP_SIZE then mergeCell (st.global_memory yy xx) (r.memory yy xx)
      else st.global_memory yy xx
    let newRobMem : Nat → Nat → TerrainData := fun yy xx =>
      if yy < MAP_SIZE ∧ xx < MAP_SIZE ∧ (newHub yy xx).explored then newHub yy xx
      else r.memory yy xx
    ({ st with
        global_memory := newHub,
        conflict_count :=
          if changes_made then st.conflict_count + conflicts else st.conflict_count },
      { r with memory := newRobMem })
  else (st, r)

/-- Resource intake `Station::deposit_resources`; deposited minerals also
credit the energy reserve 1:1. -/
def Station.deposit_resources (st : Station) (minerals scientific_data : Nat) : Station :=
  { st with
    collected_minerals := st.collected_minerals + minerals,
    collected_scientific_data := st.collected_scientific_data + scientific_data,
    energy_reserves := st.energy_reserves + minerals }

/-- The stub `Station::are_all_resources_collected_placeholder`, which returns
`false` for every station. -/
def Station.are_all_resources_collected_placeholder (_st : Station) : Bool := false

/-- Phase-label selection of `Station::get_status` (the label chosen by the
`let status = if ...` chain; the accents and emoji of the source string
literals are dropped, the selection logic is verbatim). -/
def Station.get_status_label (st : Station) : String :=
  let exploration_pct := st.get_exploration_percentage
  if 100 ≤ exploration_pct ∧ st.are_all_resources_collected_placeholder then
    "MISSION TERMINEE!"
  else if exploration_pct < 30 then "Phase exploration initiale"
  else if exploration_pct < 60 then "Collecte energie et minerais"
  else if exploration_pct < 100 then "Collecte scientifique en cours"
  else "Finalisation de la mission"

/-- Resource sweep `Station::are_all_resources_collected`: true when no
energy, mineral or scientific tile remains anywhere on the map. -/
def Station.are_all_resources_collected (_st : Station) (m : Map) : Bool :=
  allCellsYX.all fun c =>
    match m.get_tile c.1 c.2 with
    | TileType.Energy | TileType.Mineral | TileType.Scientific => false
    | _ => true

/-- Mission predicate `Station::is_mission_complete`, which delegates to
`are_all_resources_collected` (and checks nothing else). -/
def Station.is_mission_complete (st : Station) (m : Map) : Bool :=
  st.are_all_resources_collected m

/-- Oracle for the `rand::thread_rng` draws made during one robot update:
`natA`/`natB` feed the `gen_range(0..n)` calls (taken modulo the bound) and
`boolA`/`boolB` feed the `gen_bool` calls.  Every theorem below holds for
every oracle value, so no distribution is modelled. -/
structure Rng where
  natA : Nat
  natB : Nat
  boolA : Bool
  boolB : Bool

/-- Perception pass `Robot::update_memory`: stamp the current cell, then every
in-bounds cell within the role-dependent vision range whose record is absent
or older than the current hub time.  The `map` argument of the source is
unused (`let _ = map`). -/
def Robot.update_memory (r : Robot) (st : Station) : Robot :=
  let freshRecord : TerrainData :=
    { explored := true, timestamp := st.current_time,
      robot_id := r.id, robot_type := r.robot_type }
  let mem1 : Nat → Nat → TerrainData := fun yy xx =>
    if yy = r.y ∧ xx = r.x then freshRecord else r.memory yy xx
  let vision_range : Nat := match r.robot_type with
    | RobotType.Explorer => 4
    | _ => 2
  let mem2 : Nat → Nat → TerrainData := fun yy xx =>
    if yy < MAP_SIZE ∧ xx < MAP_SIZE ∧
        ((yy : Int) - (r.y : Int)).natAbs ≤ vision_range ∧
        ((xx : Int) - (r.x : Int)).natAbs ≤ vision_range ∧
        (¬ (mem1 yy xx).explored ∨ (mem1 yy xx).timestamp < st.current_time) then
      freshRecord
    else mem1 yy xx
  { r with memory := mem2 }

/-- Completion check `Robot::is_exploration_complete`: every cell of the
private memory is explored. -/
def Robot.is_exploration_complete (r : Robot) : Bool :=
  allCellsYX.all fun c => (r.memory c.2 c.1).explored

/-- Private exploration percentage `Robot::get_exploration_percentage`
(`f32` in the source, modelled as `ℚ`). -/
def Robot.get_exploration_percentage (r : Robot) : ℚ :=
  (((allCellsYX.filter fun c => (r.memory c.2 c.1).explored).length : ℚ) /
    ((MAP_SIZE * MAP_SIZE : Nat) : ℚ)) * 100

/-- Return-trigger policy `Robot::should_return_to_station`: an Explorer whose
map is complete; any robot whose energy is below 30 percent of capacity; a
MineralCollector carrying 5 or more minerals; a ScientificCollector carrying
3 or more data units.  The `map` argument of the source is unused. -/
def Robot.should_return_to_station (r : Robot) : Bool :=
  if r.robot_type = RobotType.Explorer ∧ r.is_exploration_complete then true
  else if r.energy < r.max_energy * (3 / 10 : ℚ) then true
  else
    match r.robot_type with
    | RobotType.MineralCollector => decide (5 ≤ r.minerals)
    | RobotType.ScientificCollector => decide (3 ≤ r.scientific_data)
    | _ => false

/-- Role-specific movement cost multiplier (the `match` inside
`Robot::move_to`; the source literals are `0.3`, `0.4`, `0.5`, `0.6`). -/
def moveCostMultiplier : RobotType → ℚ
  | RobotType.Explorer => 3 / 10
  | RobotType.EnergyCollector => 4 / 10
  | RobotType.MineralCollector => 5 / 10
  | RobotType.ScientificCollector => 6 / 10

/-- Movement step `Robot::move_to`: pay the role multiplier times the
Chebyshev distance, then take the new position (the validity of the target is
the responsibility of every caller). -/
def Robot.move_to (r : Robot) (x y : Nat) : Robot :=
  let dx := ((x : Int) - (r.x : Int)).natAbs
  let dy := ((y : Int) - (r.y : Int)).natAbs
  let distance : ℚ := (max dx dy : Nat)
  let energy_cost : ℚ := moveCostMultiplier r.robot_type * distance
  { r with energy := r.energy - energy_cost, x := x, y := y }

/-- Path planning `Robot::plan_path_to_station`. -/
def Robot.plan_path_to_station (r : Robot) (m : Map) : Robot :=
  { r with path_to_station := find_path m (r.x, r.y) (r.home_station_x, r.home_station_y) }

/-- Resource affinity of each role (the `match` of
`Robot::find_nearest_resource`). -/
def targetResourceFor : RobotType → Option TileType
  | RobotType.Explorer => none
  | RobotType.EnergyCollector => some TileType.Energy
  | RobotType.MineralCollector => some TileType.Mineral
  | RobotType.ScientificCollector => some TileType.Scientific

/-- The `usize::MAX` sentinel of the nearest-resource scans. -/
def usizeMax : Nat := 2 ^ 64 - 1

/-- Nearest matching resource on the whole map
(`Robot::find_nearest_resource`): minimal Manhattan distance, first cell in
scan order on ties. -/
def Robot.find_nearest_resource (r : Robot) (m : Map) : Option (Nat × Nat) :=
  match targetResourceFor r.robot_type with
  | none => none
  | some res =>
    (allCellsYX.foldl
      (fun acc c =>
        if m.get_tile c.1 c.2 = res ∧ heuristic (r.x, r.y) c < acc.2 then
          (some c, heuristic (r.x, r.y) c)
        else acc)
      ((none : Option (Nat × Nat)), usizeMax)).1

/-- Nearest matching resource among cells the station knows to be explored
(`Robot::find_nearest_known_resource`). -/
def Robot.find_nearest_known_resource (r : Robot) (m : Map) (st : Station) :
    Option (Nat × Nat) :=
  match targetResourceFor r.robot_type with
  | none => none
  | some res =>
    (allCellsYX.foldl
      (fun acc c =>
        if (st.global_memory c.2 c.1).explored ∧ m.get_tile c.1 c.2 = res ∧
            heuristic (r.x, r.y) c < acc.2 then
          (some c, heuristic (r.x, r.y) c)
        else acc)
      ((none : Option (Nat × Nat)), usizeMax)).1

/-- The list of traversable neighbour cells built by the random-move helpers
(bounds plus `is_valid_position`, in offset order; the push-to-vector loop of
the source builds the same list). -/
def Robot.validNeighborMoves (r : Robot) (m : Map) : List (Nat × Nat) :=
  neighborOffsets.filterMap fun d =>
    let nx : Int := (r.x : Int) + d.1
    let ny : Int := (r.y : Int) + d.2
    if 0 ≤ nx ∧ nx < (MAP_SIZE : Int) ∧ 0 ≤ ny ∧ ny < (MAP_SIZE : Int) ∧
        m.is_valid_position nx.toNat ny.toNat then
      some (nx.toNat, ny.toNat)
    else none

/-- Indexing pick of the random-move helpers (`possible_moves[choice]`
followed by `move_to`, on scored triples); out-of-range indexing cannot occur
in the source and leaves the robot in place here. -/
def Robot.moveToListPick (r : Robot) (l : List (Nat × Nat × Nat)) (choice : Nat) : Robot :=
  match l[choice]? with
  | some (nx, ny, _) => r.move_to nx ny
  | none => r

/-- Indexing pick on plain coordinate pairs (the uniform random neighbour
step of `Robot::standard_explore_move`). -/
def Robot.moveToPairPick (r : Robot) (l : List (Nat × Nat)) (choice : Nat) : Robot :=
  match l[choice]? with
  | some (nx, ny) => r.move_to nx ny
  | none => r

/-- The follow-first-A*-waypoint step shared by the exploration moves: step
onto the head of the path when one was found, otherwise run the fallback. -/
def Robot.followPathHead (r : Robot) (path : List (Nat × Nat)) (fallback : Robot) : Robot :=
  match path with
  | next :: _ => r.move_to next.1 next.2
  | [] => fallback

/-- Weighted random step `Robot::intelligent_random_move`: score the valid
neighbours (unexplored cells highest, then staleness capped at 50, via the
saturating subtraction of the source), sort stably by descending priority and
pick among the top three according to the oracle. -/
def Robot.intelligent_random_move (r : Robot) (m : Map) (rng : Rng) : Robot :=
  let possible_moves : List (Nat × Nat × Nat) :=
    (r.validNeighborMoves m).map fun np =>
      let priority :=
        if ¬ (r.memory np.2 np.1).explored then 100
        else min (r.last_sync_time - (r.memory np.2 np.1).timestamp) 50
      (np.1, np.2, priority)
  if possible_moves.isEmpty then r
  else
    let sorted := sortByKeyDesc (fun e => e.2.2) possible_moves
    let choice :=
      if rng.boolA ∧ ¬ sorted.isEmpty then 0
      else if rng.boolB ∧ 1 < sorted.length then 1
      else if 2 < sorted.length then 2
      else rng.natB % sorted.length
    r.moveToListPick sorted choice

/-- Frontier chase of the Explorer (`Robot::explorer_specific_move`): rank all
unexplored cells by distance, pick one of the three nearest via the oracle,
follow the first step of an A* path to it, falling back to
`intelligent_random_move`. -/
def Robot.explorer_specific_move (r : Robot) (m : Map) (rng : Rng) : Robot :=
  let unexplored_tiles : List (Nat × Nat × Nat) :=
    (allCellsYX.filter fun c => ¬ (r.memory c.2 c.1).explored).map
      fun c => (c.1, c.2, heuristic (r.x, r.y) c)
  if ¬ unexplored_tiles.isEmpty then
    let sorted := sortByKeyAsc (fun e => e.2.2) unexplored_tiles
    let candidates := sorted.take 3
    let target_idx := rng.natA % candidates.length
    match candidates[target_idx]? with
    | some (tx, ty, _) =>
      r.followPathHead (find_path m (r.x, r.y) (tx, ty)) (r.intelligent_random_move m rng)
    | none => r.intelligent_random_move m rng
  else r.intelligent_random_move m rng

/-- Reduced-range exploration step of the collector roles
(`Robot::standard_explore_move`): chase the nearest unexplored cell within
distance 3 when an A* path to it exists, else take a uniformly random valid
neighbour step. -/
def Robot.standard_explore_move (r : Robot) (m : Map) (rng : Rng) : Robot :=
  let vision_range := 3
  let unexplored_tiles : List (Nat × Nat × Nat) :=
    ((allCellsYX.filter fun c =>
        ¬ (r.memory c.2 c.1).explored ∧ heuristic (r.x, r.y) c ≤ vision_range).map
      fun c => (c.1, c.2, heuristic (r.x, r.y) c))
  let randomStep :=
    let possible_moves := r.validNeighborMoves m
    if possible_moves.isEmpty then r
    else r.moveToPairPick possible_moves (rng.natA % possible_moves.length)
  if ¬ unexplored_tiles.isEmpty then
    match sortByKeyAsc (fun e => e.2.2) unexplored_tiles with
    | t :: _ => r.followPathHead (find_path m (r.x, r.y) (t.1, t.2.1)) randomStep
    | [] => randomStep
  else randomStep

/-- Exploration-move dispatcher `Robot::explore_move`. -/
def Robot.explore_move (r : Robot) (m : Map) (rng : Rng) : Robot :=
  if r.robot_type = RobotType.Explorer then r.explorer_specific_move m rng
  else r.standard_explore_move m rng

/-- Harvesting step `Robot::collect_resources`: on a matching resource tile,
credit the role-specific yield (energy, clamped at capacity, only when below
capacity; otherwise a mineral or data unit) and consume the tile; on any
other tile, fall back to an exploration move.  Afterwards retarget the next
nearest matching resource, or turn back to the station when none remains. -/
def Robot.collect_resources (r : Robot) (m : Map) (rng : Rng) : Robot × Map :=
  let tile := m.get_tile r.x r.y
  let step : Robot × Map :=
    match r.robot_type, tile with
    | RobotType.EnergyCollector, TileType.Energy =>
      if r.energy < r.max_energy then
        let e1 := r.energy + 10
        let e2 := if r.max_energy < e1 then r.max_energy else e1
        ({ r with energy := e2 }, m.consume_resource r.x r.y)
      else (r, m)
    | RobotType.MineralCollector, TileType.Mineral =>
      ({ r with minerals := r.minerals + 1 }, m.consume_resource r.x r.y)
    | RobotType.ScientificCollector, TileType.Scientific =>
      ({ r with scientific_data := r.scientific_data + 1 }, m.consume_resource r.x r.y)
    | _, _ => (r.explore_move m rng, m)
  let r1 := step.1
  let m1 := step.2
  match r1.find_nearest_resource m1 with
  | some pos =>
    ({ r1 with path_to_station := find_path m1 (r1.x, r1.y) pos }, m1)
  | none =>
    (({ r1 with mode := RobotMode.ReturnToStation }).plan_path_to_station m1, m1)

/-- Shared shape of the two early-return blocks that send a gated collector
home (below the 30-percent threshold, and a ScientificCollector below the
60-percent threshold): turn back when away, idle when already home. -/
def Robot.gateToStation (r : Robot) (m : Map) : Robot :=
  if r.x ≠ r.home_station_x ∨ r.y ≠ r.home_station_y then
    ({ r with mode := RobotMode.ReturnToStation }).plan_path_to_station m
  else { r with mode := RobotMode.Idle }

/-- Knowledge synchronisation at the station (the `if last_sync_time <
current_time` block inside the at-home body of `Robot::update`): exchange
knowledge with the hub and stamp the sync time. -/
def Robot.syncAtStation (rb : Robot) (stA : Station) : Station × Robot :=
  if rb.last_sync_time < stA.current_time then
    let sk := stA.share_knowledge rb
    (sk.1, { sk.2 with last_sync_time := stA.current_time })
  else (stA, rb)

/-- Role-specific re-dispatch at the end of the at-home body of
`Robot::update`: an Explorer resumes exploring unless its map is complete; a
collector retargets the nearest matching resource or idles. -/
def Robot.homeRedispatch (rc : Robot) (m0 : Map) : Robot :=
  match rc.robot_type with
  | RobotType.Explorer =>
    if rc.is_exploration_complete then { rc with mode := RobotMode.Idle }
    else { rc with mode := RobotMode.Exploring }
  | _ =>
    match rc.find_nearest_resource m0 with
    | some pos =>
      { rc with path_to_station := find_path m0 (rc.x, rc.y) pos,
                mode := RobotMode.Collecting }
    | none => { rc with mode := RobotMode.Idle }

/-- At-home servicing block of `Robot::update` (the `if at home` body of the
source): full recharge, deposit of the cargo, knowledge synchronisation when
the hub clock has advanced since the last sync, then the role-specific
re-dispatch. -/
def Robot.updateAtHome (r4 : Robot) (m0 : Map) (st0 : Station) : Robot × Station :=
  if r4.x = r4.home_station_x ∧ r4.y = r4.home_station_y then
    let rb := { r4 with energy := r4.max_energy, minerals := 0, scientific_data := 0 }
    let stA := st0.deposit_resources r4.minerals r4.scientific_data
    let synced := rb.syncAtStation stA
    (Robot.homeRedispatch synced.2 m0, synced.1)
  else (r4, st0)

/-- Mode-dispatch tail of `Robot::update`: the `match self.mode` of the
source, returning the updated robot, map and station.  The branches that
return without calling `update_memory` mirror the early `return`s of the
source. -/
def Robot.updateMode (r5 : Robot) (m0 : Map) (st1 : Station) (rng : Rng) :
    Robot × Map × Station :=
  match r5.mode with
  | RobotMode.Idle =>
    if r5.robot_type = RobotType.Explorer ∧ r5.is_exploration_complete then
      (r5, m0, st1)
    else
      let r6 :=
        if r5.robot_type = RobotType.Explorer then { r5 with mode := RobotMode.Exploring }
        else r5
      (r6.update_memory st1, m0, st1)
  | RobotMode.Exploring =>
    if r5.robot_type = RobotType.Explorer ∧ r5.is_exploration_complete then
      (({ r5 with mode := RobotMode.ReturnToStation }).plan_path_to_station m0, m0, st1)
    else
      let collectorSwitch : Option Robot :=
        if r5.robot_type ≠ RobotType.Explorer then
          match r5.find_nearest_resource m0 with
          | some pos =>
            if heuristic (r5.x, r5.y) pos ≤ 5 then
              some { r5 with path_to_station := find_path m0 (r5.x, r5.y) pos,
                             mode := RobotMode.Collecting }
            else none
          | none => none
        else none
      match collectorSwitch with
      | some r6 => (r6, m0, st1)
      | none => ((r5.explore_move m0 rng).update_memory st1, m0, st1)
  | RobotMode.Collecting =>
    let tile := m0.get_tile r5.x r5.y
    let can_collect :=
      match r5.robot_type, tile with
      | RobotType.EnergyCollector, TileType.Energy => true
      | RobotType.MineralCollector, TileType.Mineral => true
      | RobotType.ScientificCollector, TileType.Scientific => true
      | _, _ => false
    if can_collect then
      let cm := r5.collect_resources m0 rng
      (cm.1.update_memory st1, cm.2, st1)
    else
      match r5.path_to_station with
      | next :: restPath =>
        ((({ r5 with path_to_station := restPath }).move_to next.1 next.2).update_memory st1,
          m0, st1)
      | [] =>
        let r6 :=
          match r5.find_nearest_resource m0 with
          | some pos => { r5 with path_to_station := find_path m0 (r5.x, r5.y) pos }
          | none => ({ r5 with mode := RobotMode.ReturnToStation }).plan_path_to_station m0
        (r6.update_memory st1, m0, st1)
  | RobotMode.ReturnToStation =>
    match r5.path_to_station with
    | next :: restPath =>
      ((({ r5 with path_to_station := restPath }).move_to next.1 next.2).update_memory st1,
        m0, st1)
    | [] =>
      if r5.x ≠ r5.home_station_x ∨ r5.y ≠ r5.home_station_y then
        let r6 := r5.plan_path_to_station m0
        match r6.path_to_station with
        | next :: restPath =>
          ((({ r6 with path_to_station := restPath }).move_to next.1 next.2).update_memory st1,
            m0, st1)
        | [] => (({ r6 with mode := RobotMode.Exploring }).update_memory st1, m0, st1)
      else (({ r5 with mode := RobotMode.Idle }).update_memory st1, m0, st1)

/-- The per-tick state machine `Robot::update`, returning the updated robot,
map and station.  The structure follows the source block by block: metabolic
cost, completion announcement, the two collector gates (early returns), the
return trigger, the no-known-resource fallback, the at-home servicing block
and the mode dispatch. -/
def Robot.update (r0 : Robot) (m0 : Map) (st0 : Station) (rng : Rng) :
    Robot × Map × Station :=
  let r1 := { r0 with energy := r0.energy - (1 / 10 : ℚ) }
  let r2 :=
    if r1.robot_type = RobotType.Explorer ∧ r1.is_exploration_complete ∧
        ¬ r1.exploration_complete_announced then
      { r1 with exploration_complete_announced := true }
    else r1
  if r2.robot_type ≠ RobotType.Explorer ∧ st0.get_exploration_percentage < 30 then
    (r2.gateToStation m0, m0, st0)
  else if r2.robot_type ≠ RobotType.Explorer ∧ st0.get_exploration_percentage < 60 ∧
      r2.robot_type = RobotType.ScientificCollector then
    (r2.gateToStation m0, m0, st0)
  else
    let r3 :=
      if r2.should_return_to_station then
        ({ r2 with mode := RobotMode.ReturnToStation }).plan_path_to_station m0
      else r2
    let r4 :=
      if r3.robot_type ≠ RobotType.Explorer ∧ r3.mode = RobotMode.Exploring then
        match r3.find_nearest_known_resource m0 st0 with
        | some _ => r3
        | none => r3.gateToStation m0
      else r3
    let atHome := r4.updateAtHome m0 st0
    atHome.1.updateMode m0 atHome.2 rng

/-- Emergency-rescue step of the simulation loop (`src/main.rs`): a robot
whose energy reached zero is teleported home with half capacity and forced
`Idle`. -/
def rescue (r : Robot) : Robot :=
  if r.energy ≤ 0 then
    { r with x := r.home_station_x, y := r.home_station_y,
             energy := r.max_energy / 2, mode := RobotMode.Idle }
  else r

/-- One full per-robot iteration of the simulation loop: the state-machine
update followed by the emergency-rescue check. -/
def updateAndRescue (r : Robot) (m : Map) (st : Station) (rng : Rng) :
    Robot × Map × Station :=
  let u := r.update m st rng
  (rescue u.1, u.2.1, u.2.2)

/-- The position invariant of the simulation loop (claim C8): the robot
stands on a traversable cell, its home station cell is traversable, and every
waypoint of its current path is traversable. -/
def RobotPosInv (m : Map) (r : Robot) : Prop :=
  m.is_valid_position r.x r.y = true ∧
  m.is_valid_position r.home_station_x r.home_station_y = true ∧
  ∀ p ∈ r.path_to_station, m.is_valid_position p.1 p.2 = true

/-! ### Correctness infrastructure for the A* search

The goal is the round-trip contract of `find_path` (claim C3) and the
validity of every returned waypoint (used by the position invariant C8).
The development follows the classic worklist-invariant structure: an
invariant `AInv` on `AState` preserved by every loop iteration, a strictly
decreasing measure `astarPhi` showing the fuel never runs out, and a
closure argument showing an exhausted open list has keyed every reachable
cell. -/

/-- One 8-neighbour step as enumerated by the search
(an offset from `neighborOffsets`). -/
def adjStep (p q : Nat × Nat) : Prop :=
  ∃ d ∈ neighborOffsets, (q.1 : Int) = (p.1 : Int) + d.1 ∧ (q.2 : Int) = (p.2 : Int) + d.2

/-- Reachability from `a` over 8-connected, in-bounds, non-obstacle cells
(every cell after `a` passes `is_valid_position`). -/
inductive ReachableFrom (m : Map) (a : Nat × Nat) : Nat × Nat → Prop
  | refl : ReachableFrom m a a
  | step {p q : Nat × Nat} : ReachableFrom m a p → adjStep p q →
      m.is_valid_position q.1 q.2 = true → ReachableFrom m a q

theorem popMin_eq_none_iff {l : List Node} : popMin l = none ↔ l = [] := by
  constructor
  · intro h
    cases l with
    | nil => rfl
    | cons n rest =>
      unfold popMin at h
      cases hrec : popMin rest with
      | none => rw [hrec] at h; exact absurd h (by simp)
      | some pr =>
        rw [hrec] at h
        obtain ⟨mn, restMinus⟩ := pr
        by_cases hle : n.f_cost ≤ mn.f_cost <;> simp [hle] at h
  · intro h; rw [h]; rfl

theorem popMin_perm {l : List Node} {n : Node} {rest : List Node}
    (h : popMin l = some (n, rest)) : l.Perm (n :: rest) := by
  induction l generalizing n rest with
  | nil => exact absurd h (by simp [popMin])
  | cons x r ih =>
    unfold popMin at h
    cases hrec : popMin r with
    | none =>
      rw [hrec] at h
      dsimp only at h
      simp only [Option.some.injEq, Prod.mk.injEq] at h
      obtain ⟨h1, h2⟩ := h
      subst h1
      subst h2
      rw [popMin_eq_none_iff.mp hrec]
    | some pr =>
      obtain ⟨mn, restMinus⟩ := pr
      rw [hrec] at h
      dsimp only at h
      by_cases hle : x.f_cost ≤ mn.f_cost
      · rw [if_pos hle] at h
        simp only [Option.some.injEq, Prod.mk.injEq] at h
        obtain ⟨h1, h2⟩ := h
        subst h1
        subst h2
        exact List.Perm.refl _
      · rw [if_neg hle] at h
        simp only [Option.some.injEq, Prod.mk.injEq] at h
        obtain ⟨h1, h2⟩ := h
        subst h1
        subst h2
        exact List.Perm.trans (List.Perm.cons x (ih hrec)) (List.Perm.swap mn x restMinus)

theorem popMin_mem {l : List Node} {n : Node} {rest : List Node}
    (h : popMin l = some (n, rest)) : n ∈ l :=
  (popMin_perm h).mem_iff.mpr (List.mem_cons_self n rest)

theorem popMin_rest_subset {l : List Node} {n : Node} {rest : List Node}
    (h : popMin l = some (n, rest)) : ∀ x ∈ rest, x ∈ l :=
  fun x hx => (popMin_perm h).mem_iff.mpr (List.mem_cons_of_mem n hx)

theorem popMin_length {l : List Node} {n : Node} {rest : List Node}
    (h : popMin l = some (n, rest)) : l.length = rest.length + 1 := by
  rw [(popMin_perm h).length_eq]
  rfl

/-- The finite domain every `g_score` key lives in: the grid cells plus the
start position. -/
def domFinset (start : Nat × Nat) : Finset (Nat × Nat) :=
  insert start ((Finset.range MAP_SIZE) ×ˢ (Finset.range MAP_SIZE))

/-- The keys of the `g_score` map, as a finite set. -/
def keysFinset (start : Nat × Nat) (s : AState) : Finset (Nat × Nat) :=
  (domFinset start).filter fun p => (s.gScore p).isSome

/-- Contribution of one cell to the loop measure: its `g_score` value, or the
out-of-key penalty `MAP_SIZE * MAP_SIZE + 1` (strictly above every value a
key can take). -/
def phiCell (s : AState) (p : Nat × Nat) : Nat :=
  match s.gScore p with
  | some v => v
  | none => MAP_SIZE * MAP_SIZE + 1

/-- Strictly decreasing measure of the A* loop: open-list length plus the
cell contributions. -/
def astarPhi (start : Nat × Nat) (s : AState) : Nat :=
  s.openSet.length + (domFinset start).sum (phiCell s)

theorem card_domFinset_le (start : Nat × Nat) :
    (domFinset start).card ≤ MAP_SIZE * MAP_SIZE + 1 := by
  calc (domFinset start).card
      ≤ ((Finset.range MAP_SIZE) ×ˢ (Finset.range MAP_SIZE)).card + 1 :=
        Finset.card_insert_le _ _
    _ = MAP_SIZE * MAP_SIZE + 1 := by
        rw [Finset.card_product, Finset.card_range]

/-- Invariant core of the A* loop state (everything except the frontier
property, which is temporarily weakened while one popped node is being
expanded). -/
structure AInvCore (m : Map) (start target : Nat × Nat) (s : AState) : Prop where
  open_keyed : ∀ n ∈ s.openSet, (s.gScore n.position).isSome
  start_keyed : (s.gScore start).isSome
  keys_ok : ∀ p : Nat × Nat, (s.gScore p).isSome →
    p = start ∨ m.is_valid_position p.1 p.2 = true
  keys_reach : ∀ p : Nat × Nat, (s.gScore p).isSome → ReachableFrom m start p
  chain_keyed : ∀ p q : Nat × Nat, s.cameFrom p = some q → (s.gScore q).isSome
  chain_dom : ∀ p : Nat × Nat, (s.gScore p).isSome → p ≠ start → (s.cameFrom p).isSome
  target_pending : (s.gScore target).isSome → target ∈ s.openSet.map Node.position
  card_bound : ∀ (p : Nat × Nat) (v : Nat), s.gScore p = some v →
    v + 1 ≤ (keysFinset start s).card

/-- Frontier property weakened by one escape position (the node currently
being expanded): every keyed cell with an unkeyed valid neighbour is still
pending, or is the escape position. -/
def FrontierW (m : Map) (curPos : Nat × Nat) (s : AState) : Prop :=
  ∀ p : Nat × Nat, (s.gScore p).isSome →
    ∀ q : Nat × Nat, adjStep p q → m.is_valid_position q.1 q.2 = true →
      (s.gScore q).isSome ∨ p ∈ s.openSet.map Node.position ∨ p = curPos

/-- Full loop invariant: the core plus the unweakened frontier property. -/
def AInv (m : Map) (start target : Nat × Nat) (s : AState) : Prop :=
  AInvCore m start target s ∧
    ∀ p : Nat × Nat, (s.gScore p).isSome →
      ∀ q : Nat × Nat, adjStep p q → m.is_valid_position q.1 q.2 = true →
        (s.gScore q).isSome ∨ p ∈ s.openSet.map Node.position

theorem is_valid_position_iff {m : Map} {x y : Nat} :
    m.is_valid_position x y = true ↔
      x < MAP_SIZE ∧ y < MAP_SIZE ∧ m.tiles y x ≠ TileType.Obstacle := by
  simp [Map.is_valid_position, and_assoc]

/-- Case analysis of one neighbour-expansion step: either the state is
unchanged (and then any valid cell at this offset was already keyed), or the
offset cell is valid and gets keyed, re-parented and pushed. -/
theorem expandNeighbor_eq_or (m : Map) (target curPos : Nat × Nat) (s : AState)
    (d : Int × Int) :
    (expandNeighbor m target curPos s d = s ∧
      ∀ q : Nat × Nat, (q.1 : Int) = (curPos.1 : Int) + d.1 →
        (q.2 : Int) = (curPos.2 : Int) + d.2 → m.is_valid_position q.1 q.2 = true →
        (s.gScore q).isSome) ∨
    (∃ nb : Nat × Nat,
      (nb.1 : Int) = (curPos.1 : Int) + d.1 ∧ (nb.2 : Int) = (curPos.2 : Int) + d.2 ∧
      m.is_valid_position nb.1 nb.2 = true ∧
      (s.gScore nb = none ∨
        ∃ g, s.gScore nb = some g ∧ (s.gScore curPos).getD 0 + 1 < g) ∧
      expandNeighbor m target curPos s d =
        { openSet := ⟨nb, (s.gScore curPos).getD 0 + 1,
            (s.gScore curPos).getD 0 + 1 + heuristic nb target⟩ :: s.openSet,
          cameFrom := fun p => if p = nb then some curPos else s.cameFrom p,
          gScore := fun p =>
            if p = nb then some ((s.gScore curPos).getD 0 + 1) else s.gScore p }) := by
  unfold expandNeighbor
  by_cases hb : (curPos.1 : Int) + d.1 < 0 ∨ (MAP_SIZE : Int) ≤ (curPos.1 : Int) + d.1 ∨
      (curPos.2 : Int) + d.2 < 0 ∨ (MAP_SIZE : Int) ≤ (curPos.2 : Int) + d.2
  · rw [if_pos hb]
    left
    refine ⟨rfl, ?_⟩
    intro q h1 h2 hv
    obtain ⟨hq1, hq2, _⟩ := is_valid_position_iff.mp hv
    exfalso
    rcases hb with hb | hb | hb | hb
    · rw [← h1] at hb; omega
    · rw [← h1] at hb
      have : (q.1 : Int) < (MAP_SIZE : Int) := by exact_mod_cast hq1
      omega
    · rw [← h2] at hb; omega
    · rw [← h2] at hb
      have : (q.2 : Int) < (MAP_SIZE : Int) := by exact_mod_cast hq2
      omega
  · rw [if_neg hb]
    push_neg at hb
    obtain ⟨hb1, hb2, hb3, hb4⟩ := hb
    have hnb1 : ((((curPos.1 : Int) + d.1).toNat : Nat) : Int) = (curPos.1 : Int) + d.1 :=
      Int.toNat_of_nonneg hb1
    have hnb2 : ((((curPos.2 : Int) + d.2).toNat : Nat) : Int) = (curPos.2 : Int) + d.2 :=
      Int.toNat_of_nonneg hb3
    have hqeq : ∀ q : Nat × Nat, (q.1 : Int) = (curPos.1 : Int) + d.1 →
        (q.2 : Int) = (curPos.2 : Int) + d.2 →
        q = (((curPos.1 : Int) + d.1).toNat, ((curPos.2 : Int) + d.2).toNat) := by
      intro q h1 h2
      have e1 : (q.1 : Int) = ((((curPos.1 : Int) + d.1).toNat : Nat) : Int) := by
        rw [hnb1]; exact h1
      have e2 : (q.2 : Int) = ((((curPos.2 : Int) + d.2).toNat : Nat) : Int) := by
        rw [hnb2]; exact h2
      exact Prod.ext (Nat.cast_inj.mp e1) (Nat.cast_inj.mp e2)
    by_cases hv : m.is_valid_position (((curPos.1 : Int) + d.1).toNat)
        (((curPos.2 : Int) + d.2).toNat) = true
    · rw [if_neg (by simpa using hv)]
      cases hg : s.gScore (((curPos.1 : Int) + d.1).toNat, ((curPos.2 : Int) + d.2).toNat) with
      | none =>
        right
        exact ⟨_, hnb1, hnb2, hv, Or.inl hg, rfl⟩
      | some g =>
        by_cases hlt : (s.gScore curPos).getD 0 + 1 < g
        · right
          refine ⟨_, hnb1, hnb2, hv, Or.inr ⟨g, hg, hlt⟩, ?_⟩
          simp [hlt]
        · left
          constructor
          · simp [hlt]
          · intro q h1 h2 _
            rw [hqeq q h1 h2, hg]
            rfl
    · rw [if_pos (by simpa using hv)]
      left
      refine ⟨rfl, ?_⟩
      intro q h1 h2 hvq
      rw [hqeq q h1 h2] at hvq
      exact absurd hvq hv

theorem isSome_if_update {α : Type} {f : Nat × Nat → Option α} {nb : Nat × Nat} {v : α}
    {p : Nat × Nat} (h : (f p).isSome) :
    (if p = nb then some v else f p).isSome := by
  by_cases hp : p = nb
  · rw [if_pos hp]; rfl
  · rw [if_neg hp]; exact h

theorem isSome_if_eq {α : Type} {f : Nat × Nat → Option α} {nb q : Nat × Nat} {v : α}
    (hq : q = nb) : (if q = nb then some v else f q).isSome := by
  rw [if_pos hq]; rfl

theorem expandNeighbor_keys_mono {m : Map} {target curPos : Nat × Nat} {s : AState}
    {d : Int × Int} {p : Nat × Nat} (h : (s.gScore p).isSome) :
    ((expandNeighbor m target curPos s d).gScore p).isSome := by
  rcases expandNeighbor_eq_or m target curPos s d with ⟨he, _⟩ | ⟨nb, _, _, _, _, he⟩ <;>
    rw [he]
  · exact h
  · exact isSome_if_update h

theorem expandNeighbor_open_mono {m : Map} {target curPos : Nat × Nat} {s : AState}
    {d : Int × Int} {pos : Nat × Nat} (h : pos ∈ s.openSet.map Node.position) :
    pos ∈ (expandNeighbor m target curPos s d).openSet.map Node.position := by
  rcases expandNeighbor_eq_or m target curPos s d with ⟨he, _⟩ | ⟨nb, _, _, _, _, he⟩ <;>
    rw [he]
  · exact h
  · exact List.mem_cons_of_mem _ h

theorem expandNeighbor_covers {m : Map} {target curPos : Nat × Nat} {s : AState}
    {d : Int × Int} (q : Nat × Nat)
    (h1 : (q.1 : Int) = (curPos.1 : Int) + d.1) (h2 : (q.2 : Int) = (curPos.2 : Int) + d.2)
    (hv : m.is_valid_position q.1 q.2 = true) :
    ((expandNeighbor m target curPos s d).gScore q).isSome := by
  rcases expandNeighbor_eq_or m target curPos s d with ⟨he, hcov⟩ |
    ⟨nb, hc1, hc2, hvnb, _, he⟩ <;> rw [he]
  · exact hcov q h1 h2 hv
  · exact isSome_if_eq
      (Prod.ext (Nat.cast_inj.mp (h1.trans hc1.symm)) (Nat.cast_inj.mp (h2.trans hc2.symm)))

theorem expand_fold_keys_mono {m : Map} {target curPos : Nat × Nat}
    (l : List (Int × Int)) :
    ∀ s : AState, ∀ p : Nat × Nat, (s.gScore p).isSome →
      ((l.foldl (expandNeighbor m target curPos) s).gScore p).isSome := by
  induction l with
  | nil => intro s p h; exact h
  | cons d rest ih => intro s p h; exact ih _ p (expandNeighbor_keys_mono h)

theorem expand_fold_covers {m : Map} {target curPos : Nat × Nat}
    (l : List (Int × Int)) :
    ∀ s : AState, ∀ d ∈ l, ∀ q : Nat × Nat,
      (q.1 : Int) = (curPos.1 : Int) + d.1 → (q.2 : Int) = (curPos.2 : Int) + d.2 →
      m.is_valid_position q.1 q.2 = true →
      ((l.foldl (expandNeighbor m target curPos) s).gScore q).isSome := by
  induction l with
  | nil => intro s d hd; exact absurd hd (List.not_mem_nil d)
  | cons d0 rest ih =>
    intro s d hd q h1 h2 hv
    rcases List.mem_cons.mp hd with hd | hd
    · subst hd
      exact expand_fold_keys_mono rest _ q (expandNeighbor_covers q h1 h2 hv)
    · exact ih _ d hd q h1 h2 hv

/-- Preservation of the invariant core, the weakened frontier property and
the measure bound by one relax-and-push update, stated over an abstract
updated state described pointwise. -/
theorem expand_update_preserves {m : Map} {start target curPos nb : Nat × Nat}
    {s s2 : AState} {tent gc : Nat}
    (hcore : AInvCore m start target s) (hfw : FrontierW m curPos s)
    (hgc : s.gScore curPos = some gc) (htent : tent = gc + 1)
    (hadj : adjStep curPos nb) (hvnb : m.is_valid_position nb.1 nb.2 = true)
    (hdec : s.gScore nb = none ∨ ∃ g, s.gScore nb = some g ∧ tent < g)
    (hOpen : s2.openSet = ⟨nb, tent, tent + heuristic nb target⟩ :: s.openSet)
    (hG : ∀ p, s2.gScore p = if p = nb then some tent else s.gScore p)
    (hCF : ∀ p, s2.cameFrom p = if p = nb then some curPos else s.cameFrom p) :
    AInvCore m start target s2 ∧ FrontierW m curPos s2 ∧
    astarPhi start s2 ≤ astarPhi start s := by
  have hcur : (s.gScore curPos).isSome := by rw [hgc]; rfl
  have hkeys_mono : ∀ p, (s.gScore p).isSome → (s2.gScore p).isSome := by
    intro p h
    rw [hG]
    exact isSome_if_update h
  have hnb_keyed : (s2.gScore nb).isSome := by rw [hG, if_pos rfl]; rfl
  have hopen_mono : ∀ pos, pos ∈ s.openSet.map Node.position →
      pos ∈ s2.openSet.map Node.position := by
    intro pos h
    rw [hOpen]
    exact List.mem_cons_of_mem _ h
  have hnb_open : nb ∈ s2.openSet.map Node.position := by
    rw [hOpen]
    exact List.mem_cons_self _ _
  have hnb_dom : nb ∈ domFinset start := by
    obtain ⟨hx, hy, _⟩ := is_valid_position_iff.mp hvnb
    exact Finset.mem_insert_of_mem (Finset.mem_product.mpr
      ⟨Finset.mem_range.mpr hx, Finset.mem_range.mpr hy⟩)
  have hkeysub : keysFinset start s ⊆ keysFinset start s2 := by
    intro p hp
    rw [keysFinset, Finset.mem_filter] at hp ⊢
    exact ⟨hp.1, hkeys_mono p hp.2⟩
  have hkeys2 : keysFinset start s2 = insert nb (keysFinset start s) := by
    unfold keysFinset
    ext p
    simp only [Finset.mem_filter, Finset.mem_insert]
    constructor
    · rintro ⟨hdom, hsome⟩
      by_cases hp : p = nb
      · exact Or.inl hp
      · rw [hG, if_neg hp] at hsome
        exact Or.inr ⟨hdom, hsome⟩
    · rintro (hp | ⟨hdom, hsome⟩)
      · subst hp
        exact ⟨hnb_dom, hnb_keyed⟩
      · exact ⟨hdom, hkeys_mono p hsome⟩
  have hcard2 : (keysFinset start s).card ≤ (keysFinset start s2).card :=
    Finset.card_le_card hkeysub
  refine ⟨?_, ?_, ?_⟩
  · refine ⟨?_, ?_, ?_, ?_, ?_, ?_, ?_, ?_⟩
    · -- open_keyed
      intro n hn
      rw [hOpen] at hn
      rcases List.mem_cons.mp hn with hn | hn
      · rw [hn, hG]
        exact isSome_if_eq rfl
      · exact hkeys_mono _ (hcore.open_keyed n hn)
    · -- start_keyed
      exact hkeys_mono _ hcore.start_keyed
    · -- keys_ok
      intro p hp
      rw [hG] at hp
      by_cases hpnb : p = nb
      · right; rw [hpnb]; exact hvnb
      · rw [if_neg hpnb] at hp
        exact hcore.keys_ok p hp
    · -- keys_reach
      intro p hp
      rw [hG] at hp
      by_cases hpnb : p = nb
      · rw [hpnb]
        exact ReachableFrom.step (hcore.keys_reach curPos hcur) hadj hvnb
      · rw [if_neg hpnb] at hp
        exact hcore.keys_reach p hp
    · -- chain_keyed
      intro p q hpq
      rw [hCF] at hpq
      by_cases hpnb : p = nb
      · rw [if_pos hpnb] at hpq
        cases hpq
        exact hkeys_mono _ hcur
      · rw [if_neg hpnb] at hpq
        exact hkeys_mono _ (hcore.chain_keyed p q hpq)
    · -- chain_dom
      intro p hp hpstart
      rw [hCF]
      by_cases hpnb : p = nb
      · rw [if_pos hpnb]; rfl
      · rw [if_neg hpnb]
        rw [hG, if_neg hpnb] at hp
        exact hcore.chain_dom p hp hpstart
    · -- target_pending
      intro ht
      rw [hG] at ht
      by_cases htnb : target = nb
      · rw [htnb]; exact hnb_open
      · rw [if_neg htnb] at ht
        exact hopen_mono _ (hcore.target_pending ht)
    · -- card_bound
      intro p v hp
      rw [hG] at hp
      by_cases hpnb : p = nb
      · rw [if_pos hpnb] at hp
        have hveq : v = tent := by
          injection hp with h
          exact h.symm
        rcases hdec with hnone | ⟨g, hsome, hlt⟩
        · have hnotmem : nb ∉ keysFinset start s := by
            rw [keysFinset, Finset.mem_filter]
            rintro ⟨-, habs⟩
            rw [hnone] at habs
            exact absurd habs (by simp)
          have hbound := hcore.card_bound curPos gc hgc
          rw [hkeys2, Finset.card_insert_of_not_mem hnotmem]
          omega
        · have hmem : nb ∈ keysFinset start s := by
            rw [keysFinset, Finset.mem_filter]
            exact ⟨hnb_dom, by rw [hsome]; rfl⟩
          have hbound := hcore.card_bound nb g hsome
          rw [hkeys2, Finset.insert_eq_self.mpr hmem]
          omega
      · rw [if_neg hpnb] at hp
        exact le_trans (hcore.card_bound p v hp) hcard2
  · -- FrontierW
    intro p hp q hq hvq
    rw [hG] at hp
    by_cases hpnb : p = nb
    · right; left; rw [hpnb]; exact hnb_open
    · rw [if_neg hpnb] at hp
      rcases hfw p hp q hq hvq with h | h | h
      · exact Or.inl (hkeys_mono _ h)
      · exact Or.inr (Or.inl (hopen_mono _ h))
      · exact Or.inr (Or.inr h)
  · -- measure
    have hopenlen : s2.openSet.length = s.openSet.length + 1 := by rw [hOpen]; rfl
    have hcell2 : phiCell s2 nb = tent := by
      rw [phiCell, hG, if_pos rfl]
    have hcellother : ∀ p, p ≠ nb → phiCell s2 p = phiCell s p := by
      intro p hp
      rw [phiCell, phiCell, hG, if_neg hp]
    have hdrop : tent + 1 ≤ phiCell s nb := by
      rcases hdec with hnone | ⟨g, hsome, hlt⟩
      · have hsub : keysFinset start s ⊆ (domFinset start).erase nb := by
          intro p hp
          rw [keysFinset, Finset.mem_filter] at hp
          rw [Finset.mem_erase]
          refine ⟨?_, hp.1⟩
          rintro rfl
          rw [hnone] at hp
          exact absurd hp.2 (by simp)
        have hb1 : (keysFinset start s).card ≤ ((domFinset start).erase nb).card :=
          Finset.card_le_card hsub
        have hb2 : ((domFinset start).erase nb).card = (domFinset start).card - 1 :=
          Finset.card_erase_of_mem hnb_dom
        have hb3 := card_domFinset_le start
        have hb4 := hcore.card_bound curPos gc hgc
        have hb5 : 0 < (domFinset start).card :=
          Finset.card_pos.mpr ⟨nb, hnb_dom⟩
        rw [phiCell, hnone]
        show tent + 1 ≤ MAP_SIZE * MAP_SIZE + 1
        omega
      · rw [phiCell, hsome]
        show tent + 1 ≤ g
        omega
    unfold astarPhi
    rw [hopenlen]
    have hsplit2 : (domFinset start).sum (phiCell s2) =
        ((domFinset start).erase nb).sum (phiCell s2) + phiCell s2 nb :=
      (Finset.sum_erase_add _ _ hnb_dom).symm
    have hsplit1 : (domFinset start).sum (phiCell s) =
        ((domFinset start).erase nb).sum (phiCell s) + phiCell s nb :=
      (Finset.sum_erase_add _ _ hnb_dom).symm
    have hsame : ((domFinset start).erase nb).sum (phiCell s2) =
        ((domFinset start).erase nb).sum (phiCell s) := by
      apply Finset.sum_congr rfl
      intro p hp
      exact hcellother p (Finset.mem_erase.mp hp).1
    rw [hsplit2, hsplit1, hsame, hcell2]
    omega

/-- Preservation of the invariant core, the weakened frontier property and
the measure bound by one neighbour-expansion step. -/
theorem expandNeighbor_preserves {m : Map} {start target curPos : Nat × Nat}
    {s : AState} {d : Int × Int}
    (hcore : AInvCore m start target s) (hfw : FrontierW m curPos s)
    (hcur : (s.gScore curPos).isSome) (hd : d ∈ neighborOffsets) :
    AInvCore m start target (expandNeighbor m target curPos s d) ∧
    FrontierW m curPos (expandNeighbor m target curPos s d) ∧
    astarPhi start (expandNeighbor m target curPos s d) ≤ astarPhi start s := by
  rcases expandNeighbor_eq_or m target curPos s d with ⟨he, _⟩ |
    ⟨nb, hc1, hc2, hvnb, hdec, he⟩
  · rw [he]; exact ⟨hcore, hfw, le_refl _⟩
  · obtain ⟨gc, hgc⟩ := Option.isSome_iff_exists.mp hcur
    have hgetd : (s.gScore curPos).getD 0 = gc := by rw [hgc]; rfl
    rw [he]
    exact expand_update_preserves hcore hfw hgc (by rw [hgetd]) ⟨d, hd, hc1, hc2⟩ hvnb hdec
      rfl (fun p => rfl) (fun p => rfl)

theorem expand_fold_preserves {m : Map} {start target curPos : Nat × Nat}
    (l : List (Int × Int)) (hl : ∀ d ∈ l, d ∈ neighborOffsets) :
    ∀ s : AState, AInvCore m start target s → FrontierW m curPos s →
      (s.gScore curPos).isSome →
      AInvCore m start target (l.foldl (expandNeighbor m target curPos) s) ∧
      FrontierW m curPos (l.foldl (expandNeighbor m target curPos) s) ∧
      astarPhi start (l.foldl (expandNeighbor m target curPos) s) ≤ astarPhi start s ∧
      (∀ pos, pos ∈ s.openSet.map Node.position →
        pos ∈ (l.foldl (expandNeighbor m target curPos) s).openSet.map Node.position) := by
  induction l with
  | nil => intro s h1 h2 _; exact ⟨h1, h2, le_refl _, fun pos h => h⟩
  | cons d rest ih =>
    intro s h1 h2 h3
    have hd : d ∈ neighborOffsets := hl d (List.mem_cons_self _ _)
    obtain ⟨hc1, hc2, hc3⟩ := expandNeighbor_preserves h1 h2 h3 hd
    have hrec := ih (fun e he => hl e (List.mem_cons_of_mem _ he)) _ hc1 hc2
      (expandNeighbor_keys_mono h3)
    exact ⟨hrec.1, hrec.2.1, le_trans hrec.2.2.1 hc3,
      fun pos hpos => hrec.2.2.2 pos (expandNeighbor_open_mono hpos)⟩

/-- One full loop iteration (pop of a non-target node plus expansion of all
its neighbours) preserves the invariant and strictly decreases the measure. -/
theorem astar_step_preserves {m : Map} {start target : Nat × Nat} {s : AState}
    {cur : Node} {rest : List Node}
    (hinv : AInv m start target s) (hpop : popMin s.openSet = some (cur, rest))
    (hne : cur.position ≠ target) :
    AInv m start target (astarExpand m target cur.position { s with openSet := rest }) ∧
    astarPhi start (astarExpand m target cur.position { s with openSet := rest }) <
      astarPhi start s := by
  obtain ⟨hcore, hfr⟩ := hinv
  set s1 : AState := { s with openSet := rest } with hs1
  have hperm := popMin_perm hpop
  have hrest_sub : ∀ n ∈ rest, n ∈ s.openSet := popMin_rest_subset hpop
  have hcur_mem : cur ∈ s.openSet := popMin_mem hpop
  have hcore1 : AInvCore m start target s1 := by
    refine ⟨?_, hcore.start_keyed, hcore.keys_ok, hcore.keys_reach, hcore.chain_keyed,
      hcore.chain_dom, ?_, hcore.card_bound⟩
    · intro n hn
      exact hcore.open_keyed n (hrest_sub n hn)
    · intro ht
      have hmem := hcore.target_pending ht
      rw [List.mem_map] at hmem ⊢
      obtain ⟨node, hnmem, hnpos⟩ := hmem
      rcases List.mem_cons.mp (hperm.mem_iff.mp hnmem) with heq | hmem2
      · exact absurd (heq ▸ hnpos) hne
      · exact ⟨node, hmem2, hnpos⟩
  have hfw1 : FrontierW m cur.position s1 := by
    intro p hp q hq hv
    rcases hfr p hp q hq hv with h | h
    · exact Or.inl h
    · rw [List.mem_map] at h
      obtain ⟨node, hnmem, hnpos⟩ := h
      rcases List.mem_cons.mp (hperm.mem_iff.mp hnmem) with heq | hmem2
      · right; right; rw [← hnpos, heq]
      · right; left
        rw [List.mem_map]
        exact ⟨node, hmem2, hnpos⟩
  have hcurkey : (s1.gScore cur.position).isSome := hcore.open_keyed cur hcur_mem
  have hfoldeq : astarExpand m target cur.position s1 =
      neighborOffsets.foldl (expandNeighbor m target cur.position) s1 := rfl
  obtain ⟨hcoreE, hfwE, hphiE, _⟩ :=
    @expand_fold_preserves m start target cur.position
      neighborOffsets (fun d hd => hd) s1 hcore1 hfw1 hcurkey
  rw [← hfoldeq] at hcoreE hfwE hphiE
  constructor
  · refine ⟨hcoreE, ?_⟩
    intro p hp q hq hv
    rcases hfwE p hp q hq hv with h | h | h
    · exact Or.inl h
    · exact Or.inr h
    · left
      obtain ⟨d, hd, h1, h2⟩ := hq
      rw [h] at h1 h2
      have := @expand_fold_covers m target cur.position
        neighborOffsets s1 d hd q h1 h2 hv
      rw [← hfoldeq] at this
      exact this
  · have hlen : s.openSet.length = rest.length + 1 := popMin_length hpop
    have hphis1 : astarPhi start s1 + 1 = astarPhi start s := by
      unfold astarPhi
      have hrest : s1.openSet = rest := rfl
      have hsum : (domFinset start).sum (phiCell s1) = (domFinset start).sum (phiCell s) :=
        Finset.sum_congr rfl (fun p _ => rfl)
      rw [hrest, hsum, hlen]
      omega
    omega

theorem astarLoop_zero {m : Map} {start target : Nat × Nat} {s : AState} :
    astarLoop m start target 0 s = [] := rfl

theorem astarLoop_succ_none {m : Map} {start target : Nat × Nat} {s : AState} {fuel : Nat}
    (hpop : popMin s.openSet = none) :
    astarLoop m start target (fuel + 1) s = [] := by
  unfold astarLoop
  rw [hpop]

theorem astarLoop_succ_some {m : Map} {start target : Nat × Nat} {s : AState} {fuel : Nat}
    {cur : Node} {rest : List Node} (hpop : popMin s.openSet = some (cur, rest)) :
    astarLoop m start target (fuel + 1) s =
      (if cur.position = target then reconstructPath s.cameFrom start reconFuel target []
       else astarLoop m start target fuel
         (astarExpand m target cur.position { s with openSet := rest })) := by
  show (match popMin s.openSet with
    | none => []
    | some (cur, rest) =>
      if cur.position = target then reconstructPath s.cameFrom start reconFuel target []
      else astarLoop m start target fuel
        (astarExpand m target cur.position { s with openSet := rest })) = _
  rw [hpop]

/-- With an exhausted open list, every cell reachable from the start is
keyed (the closure argument behind A* completeness). -/
theorem exhausted_keys_closed {m : Map} {start target : Nat × Nat} {s : AState}
    (hinv : AInv m start target s) (hempty : s.openSet = []) :
    ∀ p : Nat × Nat, ReachableFrom m start p → (s.gScore p).isSome := by
  intro p hp
  induction hp with
  | refl => exact hinv.1.start_keyed
  | step hreach hadj hvalid ih =>
    rcases hinv.2 _ ih _ hadj hvalid with h | h
    · exact h
    · rw [hempty] at h
      exact absurd h (List.not_mem_nil _)

/-- The loop returns a non-empty list only when the target is reachable. -/
theorem astarLoop_sound {m : Map} {start target : Nat × Nat} :
    ∀ (fuel : Nat) (s : AState), AInv m start target s →
      astarLoop m start target fuel s ≠ [] → ReachableFrom m start target := by
  intro fuel
  induction fuel with
  | zero => intro s _ h; exact absurd astarLoop_zero h
  | succ fuel ih =>
    intro s hinv h
    cases hpop : popMin s.openSet with
    | none => rw [astarLoop_succ_none hpop] at h; exact absurd rfl h
    | some pr =>
      obtain ⟨cur, rest⟩ := pr
      by_cases hct : cur.position = target
      · have hk : (s.gScore cur.position).isSome := hinv.1.open_keyed cur (popMin_mem hpop)
        rw [hct] at hk
        exact hinv.1.keys_reach target hk
      · rw [astarLoop_succ_some hpop, if_neg hct] at h
        exact ih _ (astar_step_preserves hinv hpop hct).1 h

/-- With a reachable target distinct from the start and enough fuel, the
loop returns the reconstruction of the path found, together with the
invariant of the returning state. -/
theorem astarLoop_complete {m : Map} {start target : Nat × Nat} :
    ∀ (fuel : Nat) (s : AState), AInv m start target s → astarPhi start s < fuel →
      target ≠ start → ReachableFrom m start target →
      ∃ s2 : AState, AInv m start target s2 ∧ (s2.gScore target).isSome ∧
        astarLoop m start target fuel s =
          reconstructPath s2.cameFrom start reconFuel target [] := by
  intro fuel
  induction fuel with
  | zero => intro s _ h; omega
  | succ fuel ih =>
    intro s hinv hphi hne hreach
    cases hpop : popMin s.openSet with
    | none =>
      have hempty := popMin_eq_none_iff.mp hpop
      have hkey := exhausted_keys_closed hinv hempty target hreach
      have hpend := hinv.1.target_pending hkey
      rw [hempty] at hpend
      exact absurd hpend (List.not_mem_nil _)
    | some pr =>
      obtain ⟨cur, rest⟩ := pr
      by_cases hct : cur.position = target
      · refine ⟨s, hinv, ?_, ?_⟩
        · have hk := hinv.1.open_keyed cur (popMin_mem hpop)
          rw [hct] at hk
          exact hk
        · rw [astarLoop_succ_some hpop, if_pos hct]
      · obtain ⟨hinv2, hphi2⟩ := astar_step_preserves hinv hpop hct
        obtain ⟨s2, h1, h2, h3⟩ := ih _ hinv2 (by omega) hne hreach
        refine ⟨s2, h1, h2, ?_⟩
        rw [astarLoop_succ_some hpop, if_neg hct, h3]

/-- The reconstruction walk only prepends to the accumulator. -/
theorem reconstructPath_suffix (cf : Nat × Nat → Option (Nat × Nat)) (start : Nat × Nat) :
    ∀ (fuel : Nat) (cur : Nat × Nat) (acc : List (Nat × Nat)),
      ∃ pre, reconstructPath cf start fuel cur acc = pre ++ acc := by
  intro fuel
  induction fuel with
  | zero => intro cur acc; exact ⟨[], rfl⟩
  | succ fuel ih =>
    intro cur acc
    rw [reconstructPath]
    by_cases hcs : cur = start
    · rw [if_pos hcs]; exact ⟨[], rfl⟩
    · rw [if_neg hcs]
      cases hcf : cf cur with
      | none => exact ⟨[], rfl⟩
      | some prev =>
        obtain ⟨pre, hpre⟩ := ih prev (cur :: acc)
        refine ⟨pre ++ [cur], ?_⟩
        show reconstructPath cf start fuel prev (cur :: acc) = pre ++ [cur] ++ acc
        rw [hpre, List.append_assoc, List.singleton_append]

/-- The reconstruction walk never emits the start position. -/
theorem reconstructPath_no_start (cf : Nat × Nat → Option (Nat × Nat)) (start : Nat × Nat) :
    ∀ (fuel : Nat) (cur : Nat × Nat) (acc : List (Nat × Nat)),
      (∀ a ∈ acc, a ≠ start) →
      ∀ p ∈ reconstructPath cf start fuel cur acc, p ≠ start := by
  intro fuel
  induction fuel with
  | zero => intro cur acc hacc p hp; exact hacc p hp
  | succ fuel ih =>
    intro cur acc hacc p hp
    rw [reconstructPath] at hp
    by_cases hcs : cur = start
    · rw [if_pos hcs] at hp; exact hacc p hp
    · rw [if_neg hcs] at hp
      cases hcf : cf cur with
      | none => rw [hcf] at hp; exact hacc p hp
      | some prev =>
        rw [hcf] at hp
        refine ih prev (cur :: acc) ?_ p hp
        intro a ha
        rcases List.mem_cons.mp ha with ha | ha
        · rw [ha]; exact hcs
        · exact hacc a ha

/-- Every cell the reconstruction walk emits is traversable (it is a
non-start `g_score` key, and those were created from valid neighbours). -/
theorem reconstructPath_elems_valid {m : Map} {start target : Nat × Nat} {s : AState}
    (hcore : AInvCore m start target s) :
    ∀ (fuel : Nat) (cur : Nat × Nat) (acc : List (Nat × Nat)),
      (s.gScore cur).isSome →
      (∀ a ∈ acc, m.is_valid_position a.1 a.2 = true) →
      ∀ p ∈ reconstructPath s.cameFrom start fuel cur acc,
        m.is_valid_position p.1 p.2 = true := by
  intro fuel
  induction fuel with
  | zero => intro cur acc _ hacc p hp; exact hacc p hp
  | succ fuel ih =>
    intro cur acc hcur hacc p hp
    rw [reconstructPath] at hp
    by_cases hcs : cur = start
    · rw [if_pos hcs] at hp; exact hacc p hp
    · rw [if_neg hcs] at hp
      cases hcf : s.cameFrom cur with
      | none => rw [hcf] at hp; exact hacc p hp
      | some prev =>
        rw [hcf] at hp
        refine ih prev (cur :: acc) (hcore.chain_keyed cur prev hcf) ?_ p hp
        intro a ha
        rcases List.mem_cons.mp ha with ha | ha
        · rw [ha]
          rcases hcore.keys_ok cur hcur with h | h
          · exact absurd h hcs
          · exact h
        · exact hacc a ha

/-- On a target distinct from the start whose `came_from` entry exists, the
reconstruction is non-empty and ends at the target. -/
theorem reconstructPath_last (cf : Nat × Nat → Option (Nat × Nat)) (start target : Nat × Nat)
    (hne : target ≠ start) (hcf : (cf target).isSome) {fuel : Nat} (hfuel : 0 < fuel) :
    reconstructPath cf start fuel target [] ≠ [] ∧
    (reconstructPath cf start fuel target []).getLast? = some target := by
  cases fuel with
  | zero => omega
  | succ fuel =>
    rw [reconstructPath, if_neg hne]
    cases hc : cf target with
    | none => rw [hc] at hcf; exact absurd hcf (by simp)
    | some prev =>
      obtain ⟨pre, hpre⟩ := reconstructPath_suffix cf start fuel prev [target]
      constructor
      · show reconstructPath cf start fuel prev [target] ≠ []
        rw [hpre]
        simp
      · show (reconstructPath cf start fuel prev [target]).getLast? = some target
        rw [hpre, List.getLast?_concat]

/-- The initial A* state of `find_path`. -/
def initialAState (start target : Nat × Nat) : AState :=
  { openSet := [⟨start, 0, heuristic start target⟩],
    cameFrom := fun _ => none,
    gScore := fun p => if p = start then some 0 else none }

theorem initial_inv {m : Map} {start target : Nat × Nat} (hne : start ≠ target) :
    AInv m start target (initialAState start target) := by
  have hg : ∀ p, (initialAState start target).gScore p =
      if p = start then some 0 else none := fun p => rfl
  have hstartdom : start ∈ domFinset start := Finset.mem_insert_self _ _
  have hstartkey : ((initialAState start target).gScore start).isSome := by
    rw [hg, if_pos rfl]; rfl
  constructor
  · refine ⟨?_, hstartkey, ?_, ?_, ?_, ?_, ?_, ?_⟩
    · intro n hn
      rcases List.mem_cons.mp hn with h | h
      · rw [h]
        exact hstartkey
      · exact absurd h (List.not_mem_nil _)
    · intro p hp
      rw [hg] at hp
      by_cases hpA : p = start
      · exact Or.inl hpA
      · rw [if_neg hpA] at hp
        exact absurd hp (by simp)
    · intro p hp
      rw [hg] at hp
      by_cases hpA : p = start
      · rw [hpA]; exact ReachableFrom.refl
      · rw [if_neg hpA] at hp
        exact absurd hp (by simp)
    · intro p q hpq
      exact absurd hpq (by simp [initialAState])
    · intro p hp hpstart
      rw [hg, if_neg hpstart] at hp
      exact absurd hp (by simp)
    · intro ht
      rw [hg, if_neg (fun h => hne h.symm)] at ht
      exact absurd ht (by simp)
    · intro p v hp
      rw [hg] at hp
      by_cases hpA : p = start
      · rw [if_pos hpA] at hp
        have hmem : start ∈ keysFinset start (initialAState start target) := by
          rw [keysFinset, Finset.mem_filter]
          exact ⟨hstartdom, hstartkey⟩
        have := Finset.card_pos.mpr ⟨start, hmem⟩
        injection hp with h
        omega
      · rw [if_neg hpA] at hp
        exact absurd hp (by simp)
  · intro p hp q _ _
    rw [hg] at hp
    by_cases hpA : p = start
    · right
      rw [hpA]
      exact List.mem_cons_self _ _
    · rw [if_neg hpA] at hp
      exact absurd hp (by simp)

theorem phiCell_of_some {s : AState} {p : Nat × Nat} {v : Nat}
    (h : s.gScore p = some v) : phiCell s p = v := by
  rw [phiCell, h]

theorem phiCell_of_none {s : AState} {p : Nat × Nat}
    (h : s.gScore p = none) : phiCell s p = MAP_SIZE * MAP_SIZE + 1 := by
  rw [phiCell, h]

theorem initial_phi_lt {start target : Nat × Nat} :
    astarPhi start (initialAState start target) < astarFuel := by
  have h401 : MAP_SIZE * MAP_SIZE + 1 = 401 := rfl
  have hbound : ∀ p ∈ domFinset start,
      phiCell (initialAState start target) p ≤ 401 := by
    intro p _
    by_cases hpA : p = start
    · rw [phiCell_of_some (show (initialAState start target).gScore p = some 0 by
        show (if p = start then some 0 else none) = some 0
        rw [if_pos hpA])]
      omega
    · rw [phiCell_of_none (show (initialAState start target).gScore p = none by
        show (if p = start then some 0 else none) = none
        rw [if_neg hpA]), h401]
  have hsum : (domFinset start).sum (phiCell (initialAState start target)) ≤
      (domFinset start).card * 401 := by
    calc (domFinset start).sum (phiCell (initialAState start target))
        ≤ (domFinset start).card • 401 := Finset.sum_le_card_nsmul _ _ _ hbound
      _ = (domFinset start).card * 401 := by rw [smul_eq_mul]
  have hcard : (domFinset start).card ≤ 401 := by
    have := card_domFinset_le start
    omega
  have hmul : (domFinset start).card * 401 ≤ 401 * 401 :=
    Nat.mul_le_mul_right 401 hcard
  have hlen : (initialAState start target).openSet.length = 1 := rfl
  have hfuel : astarFuel = 200000 := rfl
  unfold astarPhi
  rw [hlen, hfuel]
  omega

theorem astarLoop_elems_valid {m : Map} {start target : Nat × Nat} :
    ∀ (fuel : Nat) (s : AState), AInv m start target s →
      ∀ p ∈ astarLoop m start target fuel s, m.is_valid_position p.1 p.2 = true := by
  intro fuel
  induction fuel with
  | zero =>
    intro s _ p hp
    rw [astarLoop_zero] at hp
    exact absurd hp (List.not_mem_nil _)
  | succ fuel ih =>
    intro s hinv p hp
    cases hpop : popMin s.openSet with
    | none =>
      rw [astarLoop_succ_none hpop] at hp
      exact absurd hp (List.not_mem_nil _)
    | some pr =>
      obtain ⟨cur, rest⟩ := pr
      rw [astarLoop_succ_some hpop] at hp
      by_cases hct : cur.position = target
      · rw [if_pos hct] at hp
        refine reconstructPath_elems_valid hinv.1 reconFuel target [] ?_
          (fun a ha => absurd ha (List.not_mem_nil _)) p hp
        have hk := hinv.1.open_keyed cur (popMin_mem hpop)
        rw [hct] at hk
        exact hk
      · rw [if_neg hct] at hp
        exact ih _ (astar_step_preserves hinv hpop hct).1 p hp

/-- Every waypoint `find_path` returns is a traversable cell (used by the
position invariant C8). -/
theorem find_path_elems_valid (m : Map) (A B : Nat × Nat) :
    ∀ p ∈ find_path m A B, m.is_valid_position p.1 p.2 = true := by
  intro p hp
  rw [find_path] at hp
  by_cases hAB : A = B
  · rw [if_pos hAB] at hp
    exact absurd hp (List.not_mem_nil _)
  · rw [if_neg hAB] at hp
    exact astarLoop_elems_valid astarFuel (initialAState A B) (initial_inv hAB) p hp

/-- C3: round-trip contract of the A* path finder: the path from a cell to
itself is empty; for a distinct, reachable goal the result is non-empty,
excludes the start and ends at the goal; for an unreachable goal the result
is the empty collection. -/
theorem find_path_round_trip (m : Map) (A B : Nat × Nat) :
    (find_path m A A = []) ∧
    (B ≠ A → ReachableFrom m A B →
      find_path m A B ≠ [] ∧ (find_path m A B).getLast? = some B ∧ A ∉ find_path m A B) ∧
    (¬ ReachableFrom m A B → find_path m A B = []) := by
  refine ⟨by rw [find_path, if_pos rfl], ?_, ?_⟩
  · intro hne hreach
    have hne2 : A ≠ B := fun h => hne h.symm
    have heq : find_path m A B = astarLoop m A B astarFuel (initialAState A B) := by
      rw [find_path, if_neg hne2]
      rfl
    obtain ⟨s2, hinv2, hkey2, hrec⟩ :=
      astarLoop_complete astarFuel (initialAState A B) (initial_inv hne2) initial_phi_lt
        hne hreach
    have hcf : (s2.cameFrom B).isSome := hinv2.1.chain_dom B hkey2 hne
    have hlast := reconstructPath_last s2.cameFrom A B hne hcf
      (show 0 < reconFuel by rw [reconFuel]; omega)
    refine ⟨?_, ?_, ?_⟩
    · rw [heq, hrec]
      exact hlast.1
    · rw [heq, hrec]
      exact hlast.2
    · rw [heq, hrec]
      intro habs
      exact reconstructPath_no_start s2.cameFrom A reconFuel B []
        (fun a ha => absurd ha (List.not_mem_nil _)) A habs rfl
  · intro hnreach
    by_cases hAB : A = B
    · exact absurd (hAB ▸ ReachableFrom.refl) hnreach
    · by_cases hres : find_path m A B = []
      · exact hres
      · exfalso
        apply hnreach
        rw [find_path, if_neg hAB] at hres
        exact astarLoop_sound astarFuel (initialAState A B) (initial_inv hAB) hres

/-- An all-empty test map used by the concrete witnesses. -/
def testMapEmpty : Map :=
  { tiles := fun _ _ => TileType.Empty, station_x := 10, station_y := 10 }

/-- Witness for `find_path_round_trip`: on the all-empty map, the goal
`(12, 11)` is reachable from `(10, 10)` in two diagonal-ish steps. -/
theorem find_path_round_trip_witness :
    (find_path testMapEmpty (10, 10) (10, 10) = []) ∧
    (find_path testMapEmpty (10, 10) (12, 11) ≠ [] ∧
      (find_path testMapEmpty (10, 10) (12, 11)).getLast? = some (12, 11) ∧
      (10, 10) ∉ find_path testMapEmpty (10, 10) (12, 11)) :=
  ⟨(find_path_round_trip testMapEmpty (10, 10) (10, 10)).1,
    (find_path_round_trip testMapEmpty (10, 10) (12, 11)).2.1 (by decide)
      (ReachableFrom.step (p := (11, 10)) (q := (12, 11))
        (ReachableFrom.step (p := (10, 10)) (q := (11, 10)) ReachableFrom.refl
          ⟨(1, 0), by decide, by decide, by decide⟩ (by decide))
        ⟨(1, 1), by decide, by decide, by decide⟩ (by decide))⟩

/-! ### Basic facts about the cell enumeration -/

theorem mem_allCellsYX {c : Nat × Nat} :
    c ∈ allCellsYX ↔ c.1 < MAP_SIZE ∧ c.2 < MAP_SIZE := by
  obtain ⟨a, b⟩ := c
  simp only [allCellsYX, List.mem_flatMap, List.mem_map, List.mem_range, Prod.mk.injEq]
  constructor
  · rintro ⟨y, hy, x, hx, hxa, hyb⟩
    subst hxa; subst hyb; exact ⟨hx, hy⟩
  · rintro ⟨ha, hb⟩
    exact ⟨b, hb, a, ha, rfl, rfl⟩

theorem noResourceTile_iff (t : TileType) :
    (match t with
      | TileType.Energy | TileType.Mineral | TileType.Scientific => false
      | _ => true) = true ↔
      t ≠ TileType.Energy ∧ t ≠ TileType.Mineral ∧ t ≠ TileType.Scientific := by
  cases t <;> simp

/-! ### Pointwise description of the knowledge merge -/

/-- Number of timestamp conflicts one synchronisation resolves (the
`conflicts` accumulator of `Station::share_knowledge`). -/
def conflictsCount (st : Station) (r : Robot) : Nat :=
  (allCellsYX.filter fun c =>
    (r.memory c.2 c.1).explored && (st.global_memory c.2 c.1).explored &&
      decide ((st.global_memory c.2 c.1).timestamp < (r.memory c.2 c.1).timestamp)).length

theorem share_knowledge_memory_eq (st : Station) (r : Robot)
    (hx : r.x = r.home_station_x) (hy : r.y = r.home_station_y) (yy xx : Nat) :
    (st.share_knowledge r).1.global_memory yy xx =
      (if yy < MAP_SIZE ∧ xx < MAP_SIZE then
        mergeCell (st.global_memory yy xx) (r.memory yy xx)
      else st.global_memory yy xx) := by
  simp [Station.share_knowledge, hx, hy]

theorem share_knowledge_robot_memory_eq (st : Station) (r : Robot)
    (hx : r.x = r.home_station_x) (hy : r.y = r.home_station_y) (yy xx : Nat) :
    (st.share_knowledge r).2.memory yy xx =
      (if yy < MAP_SIZE ∧ xx < MAP_SIZE ∧
          ((st.share_knowledge r).1.global_memory yy xx).explored then
        (st.share_knowledge r).1.global_memory yy xx
      else r.memory yy xx) := by
  simp [Station.share_knowledge, hx, hy]

theorem share_knowledge_conflict_eq (st : Station) (r : Robot)
    (hx : r.x = r.home_station_x) (hy : r.y = r.home_station_y) :
    (st.share_knowledge r).1.conflict_count = st.conflict_count + conflictsCount st r := by
  simp only [Station.share_knowledge, hx, hy, and_self, if_true]
  by_cases hch : (allCellsYX.any fun c =>
      (r.memory c.2 c.1).explored &&
        (!(st.global_memory c.2 c.1).explored ||
          decide ((st.global_memory c.2 c.1).timestamp < (r.memory c.2 c.1).timestamp))) = true
  · simp [hch, conflictsCount]
  · have hnil : (allCellsYX.filter fun c =>
        (r.memory c.2 c.1).explored && (st.global_memory c.2 c.1).explored &&
          decide ((st.global_memory c.2 c.1).timestamp < (r.memory c.2 c.1).timestamp)) = [] := by
      rw [List.filter_eq_nil_iff]
      intro c hc hconf
      apply hch
      rw [List.any_eq_true]
      refine ⟨c, hc, ?_⟩
      simp only [Bool.and_eq_true, Bool.or_eq_true, decide_eq_true_eq] at hconf ⊢
      exact ⟨hconf.1.1, Or.inr hconf.2⟩
    simp [hch, conflictsCount, hnil]

/-- Well-formedness of a memory grid, an invariant of every memory the
program ever builds: an in-bounds cell that is not explored still holds the
pristine default record. -/
def MemWellFormed (mem : Nat → Nat → TerrainData) : Prop :=
  ∀ yy xx, yy < MAP_SIZE → xx < MAP_SIZE → (mem yy xx).explored = false →
    mem yy xx = defaultTerrain

/-! ### Claims about the station economy and status -/

/-- C5: `try_create_robot` declines (returning no robot and changing neither
the energy reserve, the mineral stock nor the id counter) whenever energy is
below 50 or minerals below 15, and otherwise creates a robot, deducts exactly
50 energy and 15 minerals together, and advances the id counter by 1. -/
theorem try_create_robot_costs (st : Station) (m : Map) :
    (st.energy_reserves < 50 ∨ st.collected_minerals < 15 →
      (st.try_create_robot m).1 = none ∧
      (st.try_create_robot m).2.energy_reserves = st.energy_reserves ∧
      (st.try_create_robot m).2.collected_minerals = st.collected_minerals ∧
      (st.try_create_robot m).2.next_robot_id = st.next_robot_id) ∧
    (50 ≤ st.energy_reserves → 15 ≤ st.collected_minerals →
      (∃ rb, (st.try_create_robot m).1 = some rb) ∧
      (st.try_create_robot m).2.energy_reserves = st.energy_reserves - 50 ∧
      (st.try_create_robot m).2.collected_minerals = st.collected_minerals - 15 ∧
      (st.try_create_robot m).2.next_robot_id = st.next_robot_id + 1) := by
  constructor
  · intro h
    have hc : ¬ (50 ≤ st.energy_reserves ∧ 15 ≤ st.collected_minerals) := by
      rcases h with h | h <;> omega
    simp [Station.try_create_robot, hc]
  · intro h1 h2
    simp [Station.try_create_robot, h1, h2]

/-- Witness for `try_create_robot_costs`: the fresh station (100 energy,
0 minerals) is declined, and a funded station is charged exactly 50 and 15. -/
theorem try_create_robot_costs_witness :
    (Station.new.collected_minerals < 15 ∧
      ((Station.new.try_create_robot
        { tiles := fun _ _ => TileType.Empty, station_x := 10, station_y := 10 }).1 = none ∧
       (Station.new.try_create_robot
        { tiles := fun _ _ => TileType.Empty, station_x := 10, station_y := 10 }).2.energy_reserves =
          Station.new.energy_reserves ∧
       (Station.new.try_create_robot
        { tiles := fun _ _ => TileType.Empty, station_x := 10, station_y := 10 }).2.collected_minerals =
          Station.new.collected_minerals ∧
       (Station.new.try_create_robot
        { tiles := fun _ _ => TileType.Empty, station_x := 10, station_y := 10 }).2.next_robot_id =
          Station.new.next_robot_id)) ∧
    ((∃ rb, (({ Station.new with collected_minerals := 20 }).try_create_robot
        { tiles := fun _ _ => TileType.Empty, station_x := 10, station_y := 10 }).1 = some rb) ∧
      (({ Station.new with collected_minerals := 20 }).try_create_robot
        { tiles := fun _ _ => TileType.Empty, station_x := 10, station_y := 10 }).2.energy_reserves =
        ({ Station.new with collected_minerals := 20 } : Station).energy_reserves - 50 ∧
      (({ Station.new with collected_minerals := 20 }).try_create_robot
        { tiles := fun _ _ => TileType.Empty, station_x := 10, station_y := 10 }).2.collected_minerals =
        ({ Station.new with collected_minerals := 20 } : Station).collected_minerals - 15 ∧
      (({ Station.new with collected_minerals := 20 }).try_create_robot
        { tiles := fun _ _ => TileType.Empty, station_x := 10, station_y := 10 }).2.next_robot_id =
        ({ Station.new with collected_minerals := 20 } : Station).next_robot_id + 1) :=
  ⟨⟨by decide,
    (try_create_robot_costs Station.new
      { tiles := fun _ _ => TileType.Empty, station_x := 10, station_y := 10 }).1
      (Or.inr (by decide))⟩,
    (try_create_robot_costs { Station.new with collected_minerals := 20 }
      { tiles := fun _ _ => TileType.Empty, station_x := 10, station_y := 10 }).2
      (by decide) (by decide)⟩

/-- C2 (counterexample): on a map with no resource at all, the fresh station
(0 percent explored) already satisfies `is_mission_complete`, so the predicate
is not false below 100 percent exploration, contrary to the claim. -/
theorem mission_complete_exploration_counterexample :
    Station.new.explored_count = 0 ∧
    Station.new.get_exploration_percentage < 100 ∧
    (Station.new.is_mission_complete
      { tiles := fun _ _ => TileType.Empty, station_x := 10, station_y := 10 }) = true ∧
    ¬ ((Station.new.is_mission_complete
      { tiles := fun _ _ => TileType.Empty, station_x := 10, station_y := 10 }) = false) := by
  refine ⟨by decide, ?_, by decide, by decide⟩
  have h0 : Station.new.explored_count = 0 := by decide
  rw [Station.get_exploration_percentage, h0]
  norm_num

/-- C2 (amended): `is_mission_complete` holds exactly when no energy, mineral
or scientific tile remains anywhere in bounds on the map, independently of the
exploration percentage and of the agents. -/
theorem is_mission_complete_iff_no_resources (st : Station) (m : Map) :
    st.is_mission_complete m = true ↔
      ∀ x, x < MAP_SIZE → ∀ y, y < MAP_SIZE →
        m.get_tile x y ≠ TileType.Energy ∧ m.get_tile x y ≠ TileType.Mineral ∧
          m.get_tile x y ≠ TileType.Scientific := by
  unfold Station.is_mission_complete Station.are_all_resources_collected
  rw [List.all_eq_true]
  constructor
  · intro h x hx y hy
    have := h (x, y) (mem_allCellsYX.mpr ⟨hx, hy⟩)
    exact (noResourceTile_iff _).mp this
  · intro h c hc
    obtain ⟨hc1, hc2⟩ := mem_allCellsYX.mp hc
    exact (noResourceTile_iff _).mpr (h c.1 hc1 c.2 hc2)

/-- Witness for `is_mission_complete_iff_no_resources` at a concrete
resource-free map. -/
theorem is_mission_complete_iff_no_resources_witness :
    (Station.new.is_mission_complete
      { tiles := fun _ _ => TileType.Empty, station_x := 10, station_y := 10 }) = true :=
  (is_mission_complete_iff_no_resources Station.new
    { tiles := fun _ _ => TileType.Empty, station_x := 10, station_y := 10 }).mpr
    (by decide)

/-- C10: the phase label of `Station::get_status` can never be the
mission-complete label, because the completion condition it consults delegates
to `are_all_resources_collected_placeholder`, which returns `false` on every
input. -/
theorem status_label_never_mission_complete (st : Station) :
    st.are_all_resources_collected_placeholder = false ∧
    st.get_status_label ≠ "MISSION TERMINEE!" := by
  refine ⟨rfl, ?_⟩
  unfold Station.get_status_label
  simp only [Station.are_all_resources_collected_placeholder, Bool.false_eq_true, and_false,
    if_false]
  split
  · decide
  · split
    · decide
    · split
      · decide
      · decide

/-! ### The two-agent merge scenario (C1) -/

/-- A robot sitting at its home station whose private memory holds exactly one
explored cell `(cx, cy)` with the given timestamp (the reporting agent of the
two-agent merge scenario). -/
def scenarioRobot (id hx hy cx cy ts : Nat) : Robot :=
  { Robot.new_with_memory hx hy RobotType.Explorer id hx hy (fun _ _ => defaultTerrain) with
      memory := fun yy xx =>
        if yy = cy ∧ xx = cx then
          { explored := true, timestamp := ts, robot_id := id, robot_type := RobotType.Explorer }
        else defaultTerrain }

/-- C1 (counterexample): in the scenario of the claim (fresh hub, agent with
timestamp 9 synchronises first, agent with timestamp 5 second) the stored
timestamp is 9 but the conflict counter increases by 0, not by 1: the stale
write is discarded by the `robot.timestamp > hub.timestamp` test without
touching the counter. -/
theorem merge_two_agents_counterexample :
    ((((Station.new.share_knowledge (scenarioRobot 1 10 10 3 4 9)).1.share_knowledge
        (scenarioRobot 2 10 10 3 4 5)).1.global_memory 4 3).timestamp = 9) ∧
    (((Station.new.share_knowledge (scenarioRobot 1 10 10 3 4 9)).1.share_knowledge
        (scenarioRobot 2 10 10 3 4 5)).1.conflict_count = 0) ∧
    ¬ (((Station.new.share_knowledge (scenarioRobot 1 10 10 3 4 9)).1.share_knowledge
        (scenarioRobot 2 10 10 3 4 5)).1.conflict_count =
      Station.new.conflict_count + 1) := by
  refine ⟨by decide, by decide, by decide⟩

/-- C1 (amended): starting from any hub whose memory is unexplored at the
cell, if the agent holding the cell with timestamp 9 synchronises first and
the agent holding it with timestamp 5 second, the stored timestamp is 9 and
the conflict counter is unchanged (it would increase by 1 only in the reverse
synchronisation order, when the later write overwrites the earlier one). -/
theorem merge_two_agents_amended (st : Station) (idA idB hx hy cx cy : Nat)
    (hcx : cx < MAP_SIZE) (hcy : cy < MAP_SIZE)
    (hunexp : (st.global_memory cy cx).explored = false) :
    ((((st.share_knowledge (scenarioRobot idA hx hy cx cy 9)).1.share_knowledge
        (scenarioRobot idB hx hy cx cy 5)).1.global_memory cy cx).timestamp = 9) ∧
    (((st.share_knowledge (scenarioRobot idA hx hy cx cy 9)).1.share_knowledge
        (scenarioRobot idB hx hy cx cy 5)).1.conflict_count = st.conflict_count) := by
  set rA := scenarioRobot idA hx hy cx cy 9 with hrA
  set rB := scenarioRobot idB hx hy cx cy 5 with hrB
  have hrAhome : rA.x = rA.home_station_x ∧ rA.y = rA.home_station_y := ⟨rfl, rfl⟩
  have hrBhome : rB.x = rB.home_station_x ∧ rB.y = rB.home_station_y := ⟨rfl, rfl⟩
  set st1 := (st.share_knowledge rA).1 with hst1
  have hmemA : ∀ yy xx, rA.memory yy xx =
      (if yy = cy ∧ xx = cx then
        { explored := true, timestamp := 9, robot_id := idA, robot_type := RobotType.Explorer }
      else defaultTerrain) := fun yy xx => rfl
  have hmemB : ∀ yy xx, rB.memory yy xx =
      (if yy = cy ∧ xx = cx then
        { explored := true, timestamp := 5, robot_id := idB, robot_type := RobotType.Explorer }
      else defaultTerrain) := fun yy xx => rfl
  have hmemAc : rA.memory cy cx =
      { explored := true, timestamp := 9, robot_id := idA, robot_type := RobotType.Explorer } := by
    rw [hmemA, if_pos ⟨rfl, rfl⟩]
  have hmemBc : rB.memory cy cx =
      { explored := true, timestamp := 5, robot_id := idB, robot_type := RobotType.Explorer } := by
    rw [hmemB, if_pos ⟨rfl, rfl⟩]
  have hst1c : st1.global_memory cy cx =
      { explored := true, timestamp := 9, robot_id := idA, robot_type := RobotType.Explorer } := by
    rw [hst1, share_knowledge_memory_eq st rA hrAhome.1 hrAhome.2, if_pos ⟨hcy, hcx⟩, hmemAc]
    unfold mergeCell
    simp [hunexp]
  have hst1o : ∀ yy xx, ¬ (yy = cy ∧ xx = cx) →
      st1.global_memory yy xx = st.global_memory yy xx := by
    intro yy xx hcase
    rw [hst1, share_knowledge_memory_eq st rA hrAhome.1 hrAhome.2]
    by_cases hb : yy < MAP_SIZE ∧ xx < MAP_SIZE
    · rw [if_pos hb]
      have hdef : rA.memory yy xx = defaultTerrain := by rw [hmemA, if_neg hcase]
      rw [hdef]
      simp [mergeCell, defaultTerrain]
    · rw [if_neg hb]
  have hccA : conflictsCount st rA = 0 := by
    have hfil : (allCellsYX.filter fun c =>
        (rA.memory c.2 c.1).explored && (st.global_memory c.2 c.1).explored &&
          decide ((st.global_memory c.2 c.1).timestamp < (rA.memory c.2 c.1).timestamp)) = [] := by
      rw [List.filter_eq_nil_iff]
      intro c _ hconf
      simp only [Bool.and_eq_true, decide_eq_true_eq] at hconf
      by_cases hcase : c.2 = cy ∧ c.1 = cx
      · have hhub := hconf.1.2
        rw [hcase.1, hcase.2, hunexp] at hhub
        exact Bool.false_ne_true hhub
      · have hrob := hconf.1.1
        rw [hmemA, if_neg hcase] at hrob
        exact Bool.false_ne_true hrob
    unfold conflictsCount
    rw [hfil]
    rfl
  have hccB : conflictsCount st1 rB = 0 := by
    have hfil : (allCellsYX.filter fun c =>
        (rB.memory c.2 c.1).explored && (st1.global_memory c.2 c.1).explored &&
          decide ((st1.global_memory c.2 c.1).timestamp < (rB.memory c.2 c.1).timestamp)) = [] := by
      rw [List.filter_eq_nil_iff]
      intro c _ hconf
      simp only [Bool.and_eq_true, decide_eq_true_eq] at hconf
      by_cases hcase : c.2 = cy ∧ c.1 = cx
      · have hts := hconf.2
        rw [hcase.1, hcase.2, hmemBc, hst1c] at hts
        simp at hts
      · have hrob := hconf.1.1
        rw [hmemB, if_neg hcase] at hrob
        exact Bool.false_ne_true hrob
    unfold conflictsCount
    rw [hfil]
    rfl
  constructor
  · rw [share_knowledge_memory_eq st1 rB hrBhome.1 hrBhome.2, if_pos ⟨hcy, hcx⟩, hmemBc, hst1c]
    unfold mergeCell
    simp
  · rw [share_knowledge_conflict_eq st1 rB hrBhome.1 hrBhome.2, hccB,
      hst1, share_knowledge_conflict_eq st rA hrAhome.1 hrAhome.2, hccA]
    rfl

/-- Witness for `merge_two_agents_amended` at the fresh station and cell `(3, 4)`. -/
theorem merge_two_agents_amended_witness :
    ((((Station.new.share_knowledge (scenarioRobot 1 10 10 3 4 9)).1.share_knowledge
        (scenarioRobot 2 10 10 3 4 5)).1.global_memory 4 3).timestamp = 9) ∧
    (((Station.new.share_knowledge (scenarioRobot 1 10 10 3 4 9)).1.share_knowledge
        (scenarioRobot 2 10 10 3 4 5)).1.conflict_count = Station.new.conflict_count) :=
  merge_two_agents_amended Station.new 1 2 10 10 3 4 (by decide) (by decide) (by decide)

/-! ### Monotone merge and full refresh (C4) -/

/-- C4: for a robot at its home coordinates, one `share_knowledge` call never
decreases any stored hub timestamp, and afterwards the robot private memory
coincides cell for cell with the hub canonical memory.  The two
well-formedness hypotheses are the data-model invariant that unexplored cells
still hold the pristine default record, true of every memory the program
builds. -/
theorem share_knowledge_monotone_refresh (st : Station) (r : Robot)
    (hx : r.x = r.home_station_x) (hy : r.y = r.home_station_y)
    (hwfHub : MemWellFormed st.global_memory) (hwfRob : MemWellFormed r.memory) :
    (∀ yy xx, (st.global_memory yy xx).timestamp ≤
      ((st.share_knowledge r).1.global_memory yy xx).timestamp) ∧
    (∀ yy xx, yy < MAP_SIZE → xx < MAP_SIZE →
      (st.share_knowledge r).2.memory yy xx = (st.share_knowledge r).1.global_memory yy xx) := by
  constructor
  · intro yy xx
    rw [share_knowledge_memory_eq st r hx hy]
    by_cases hb : yy < MAP_SIZE ∧ xx < MAP_SIZE
    · rw [if_pos hb]
      unfold mergeCell
      by_cases hre : (r.memory yy xx).explored
      · rw [if_pos hre]
        by_cases hhe : (st.global_memory yy xx).explored
        · rw [if_pos hhe]
          by_cases hlt : (st.global_memory yy xx).timestamp < (r.memory yy xx).timestamp
          · rw [if_pos hlt]; exact Nat.le_of_lt hlt
          · rw [if_neg hlt]
        · rw [if_neg hhe]
          have : st.global_memory yy xx = defaultTerrain :=
            hwfHub yy xx hb.1 hb.2 (Bool.not_eq_true _ ▸ hhe)
          rw [this]
          exact Nat.zero_le _
      · rw [if_neg hre]
    · rw [if_neg hb]
  · intro yy xx hyy hxx
    rw [share_knowledge_robot_memory_eq st r hx hy]
    by_cases hexp : ((st.share_knowledge r).1.global_memory yy xx).explored
    · rw [if_pos ⟨hyy, hxx, hexp⟩]
    · rw [if_neg (by simp [hyy, hxx, hexp])]
      rw [share_knowledge_memory_eq st r hx hy, if_pos ⟨hyy, hxx⟩] at hexp ⊢
      unfold mergeCell at hexp ⊢
      by_cases hre : (r.memory yy xx).explored
      · rw [if_pos hre] at hexp ⊢
        by_cases hhe : (st.global_memory yy xx).explored
        · rw [if_pos hhe] at hexp ⊢
          by_cases hlt : (st.global_memory yy xx).timestamp < (r.memory yy xx).timestamp
          · rw [if_pos hlt] at hexp; exact absurd hre hexp
          · rw [if_neg hlt] at hexp; exact absurd hhe hexp
        · rw [if_neg hhe] at hexp; exact absurd hre hexp
      · rw [if_neg hre] at hexp ⊢
        have h1 : r.memory yy xx = defaultTerrain :=
          hwfRob yy xx hyy hxx (Bool.not_eq_true _ ▸ hre)
        have h2 : st.global_memory yy xx = defaultTerrain :=
          hwfHub yy xx hyy hxx (Bool.not_eq_true _ ▸ hexp)
        rw [h1, h2]

/-! ### Helper lemmas for the robot state machine -/

theorem mem_insertByKeyAsc {α : Type} (key : α → Nat) (x a : α) :
    ∀ l : List α, a ∈ insertByKeyAsc key x l → a = x ∨ a ∈ l := by
  intro l
  induction l with
  | nil =>
    intro h
    rw [insertByKeyAsc] at h
    rcases List.mem_singleton.mp h with h
    exact Or.inl h
  | cons y ys ih =>
    intro h
    rw [insertByKeyAsc] at h
    by_cases hk : key y < key x
    · rw [if_pos hk] at h
      rcases List.mem_cons.mp h with h | h
      · exact Or.inr (h ▸ List.mem_cons_self _ _)
      · rcases ih h with h | h
        · exact Or.inl h
        · exact Or.inr (List.mem_cons_of_mem _ h)
    · rw [if_neg hk] at h
      rcases List.mem_cons.mp h with h | h
      · exact Or.inl h
      · exact Or.inr h

theorem mem_sortByKeyAsc {α : Type} (key : α → Nat) :
    ∀ (l : List α) (a : α), a ∈ sortByKeyAsc key l → a ∈ l := by
  intro l
  induction l with
  | nil => intro a h; exact absurd h (List.not_mem_nil a)
  | cons x xs ih =>
    intro a h
    rw [sortByKeyAsc] at h
    rcases mem_insertByKeyAsc key x a _ h with h | h
    · exact h ▸ List.mem_cons_self _ _
    · exact List.mem_cons_of_mem _ (ih a h)

theorem mem_insertByKeyDesc {α : Type} (key : α → Nat) (x a : α) :
    ∀ l : List α, a ∈ insertByKeyDesc key x l → a = x ∨ a ∈ l := by
  intro l
  induction l with
  | nil =>
    intro h
    rw [insertByKeyDesc] at h
    rcases List.mem_singleton.mp h with h
    exact Or.inl h
  | cons y ys ih =>
    intro h
    rw [insertByKeyDesc] at h
    by_cases hk : key x < key y
    · rw [if_pos hk] at h
      rcases List.mem_cons.mp h with h | h
      · exact Or.inr (h ▸ List.mem_cons_self _ _)
      · rcases ih h with h | h
        · exact Or.inl h
        · exact Or.inr (List.mem_cons_of_mem _ h)
    · rw [if_neg hk] at h
      rcases List.mem_cons.mp h with h | h
      · exact Or.inl h
      · exact Or.inr h

theorem mem_sortByKeyDesc {α : Type} (key : α → Nat) :
    ∀ (l : List α) (a : α), a ∈ sortByKeyDesc key l → a ∈ l := by
  intro l
  induction l with
  | nil => intro a h; exact absurd h (List.not_mem_nil a)
  | cons x xs ih =>
    intro a h
    rw [sortByKeyDesc] at h
    rcases mem_insertByKeyDesc key x a _ h with h | h
    · exact h ▸ List.mem_cons_self _ _
    · exact List.mem_cons_of_mem _ (ih a h)

theorem validNeighborMoves_valid (r : Robot) (m : Map) :
    ∀ p ∈ r.validNeighborMoves m, m.is_valid_position p.1 p.2 = true := by
  intro p hp
  rw [Robot.validNeighborMoves, List.mem_filterMap] at hp
  obtain ⟨d, _, hd⟩ := hp
  by_cases hc : 0 ≤ (r.x : Int) + d.1 ∧ (r.x : Int) + d.1 < (MAP_SIZE : Int) ∧
      0 ≤ (r.y : Int) + d.2 ∧ (r.y : Int) + d.2 < (MAP_SIZE : Int) ∧
      m.is_valid_position ((r.x : Int) + d.1).toNat ((r.y : Int) + d.2).toNat = true
  · rw [if_pos hc] at hd
    injection hd with hd
    rw [← hd]
    exact hc.2.2.2.2
  · rw [if_neg hc] at hd
    exact absurd hd (by simp)

theorem move_to_energy_le (r : Robot) (x y : Nat) : (r.move_to x y).energy ≤ r.energy := by
  have heq : (r.move_to x y).energy = r.energy -
      moveCostMultiplier r.robot_type *
        ((max (((x : Int) - (r.x : Int)).natAbs) (((y : Int) - (r.y : Int)).natAbs) : Nat) : ℚ) :=
    rfl
  rw [heq]
  have hm : (0 : ℚ) ≤ moveCostMultiplier r.robot_type := by
    cases hr : r.robot_type <;> simp [moveCostMultiplier] <;> norm_num
  exact sub_le_self _ (mul_nonneg hm (Nat.cast_nonneg _))

theorem gateToStation_fields (r : Robot) (m : Map) :
    (r.gateToStation m).x = r.x ∧ (r.gateToStation m).y = r.y ∧
    (r.gateToStation m).energy = r.energy ∧
    (r.gateToStation m).max_energy = r.max_energy ∧
    (r.gateToStation m).minerals = r.minerals ∧
    (r.gateToStation m).scientific_data = r.scientific_data ∧
    (r.gateToStation m).robot_type = r.robot_type ∧
    (r.gateToStation m).home_station_x = r.home_station_x ∧
    (r.gateToStation m).home_station_y = r.home_station_y ∧
    (r.gateToStation m).memory = r.memory := by
  unfold Robot.gateToStation Robot.plan_path_to_station
  split <;> exact ⟨rfl, rfl, rfl, rfl, rfl, rfl, rfl, rfl, rfl, rfl⟩

theorem gateToStation_path (r : Robot) (m : Map) :
    (r.gateToStation m).path_to_station = r.path_to_station ∨
    (r.gateToStation m).path_to_station =
      find_path m (r.x, r.y) (r.home_station_x, r.home_station_y) := by
  unfold Robot.gateToStation Robot.plan_path_to_station
  split
  · exact Or.inr rfl
  · exact Or.inl rfl

theorem gateToStation_mode_away (r : Robot) (m : Map)
    (h : r.x ≠ r.home_station_x ∨ r.y ≠ r.home_station_y) :
    (r.gateToStation m).mode = RobotMode.ReturnToStation := by
  unfold Robot.gateToStation Robot.plan_path_to_station
  rw [if_pos h]

theorem share_knowledge_robot_fields (st : Station) (r : Robot) :
    (st.share_knowledge r).2.x = r.x ∧ (st.share_knowledge r).2.y = r.y ∧
    (st.share_knowledge r).2.energy = r.energy ∧
    (st.share_knowledge r).2.max_energy = r.max_energy ∧
    (st.share_knowledge r).2.minerals = r.minerals ∧
    (st.share_knowledge r).2.scientific_data = r.scientific_data ∧
    (st.share_knowledge r).2.robot_type = r.robot_type ∧
    (st.share_knowledge r).2.mode = r.mode ∧
    (st.share_knowledge r).2.path_to_station = r.path_to_station ∧
    (st.share_knowledge r).2.home_station_x = r.home_station_x ∧
    (st.share_knowledge r).2.home_station_y = r.home_station_y := by
  unfold Station.share_knowledge
  split <;> exact ⟨rfl, rfl, rfl, rfl, rfl, rfl, rfl, rfl, rfl, rfl, rfl⟩

/-- A list pick on scored triples whose coordinates are all traversable
either stays put or moves to a traversable cell. -/
theorem moveToListPick_shape (r : Robot) (m : Map) (l : List (Nat × Nat × Nat)) (choice : Nat)
    (hval : ∀ t ∈ l, m.is_valid_position t.1 t.2.1 = true) :
    r.moveToListPick l choice = r ∨
    ∃ x y, m.is_valid_position x y = true ∧ r.moveToListPick l choice = r.move_to x y := by
  unfold Robot.moveToListPick
  cases hget : l[choice]? with
  | none => exact Or.inl rfl
  | some trip =>
    obtain ⟨nx, ny, pr⟩ := trip
    exact Or.inr ⟨nx, ny, hval _ (List.getElem?_mem hget), rfl⟩

theorem moveToPairPick_shape (r : Robot) (m : Map) (l : List (Nat × Nat)) (choice : Nat)
    (hval : ∀ t ∈ l, m.is_valid_position t.1 t.2 = true) :
    r.moveToPairPick l choice = r ∨
    ∃ x y, m.is_valid_position x y = true ∧ r.moveToPairPick l choice = r.move_to x y := by
  unfold Robot.moveToPairPick
  cases hget : l[choice]? with
  | none => exact Or.inl rfl
  | some pr =>
    obtain ⟨nx, ny⟩ := pr
    exact Or.inr ⟨nx, ny, hval _ (List.getElem?_mem hget), rfl⟩

theorem followPathHead_shape (r : Robot) (m : Map) (path : List (Nat × Nat)) (fallback : Robot)
    (hval : ∀ p ∈ path, m.is_valid_position p.1 p.2 = true)
    (hfb : fallback = r ∨
      ∃ x y, m.is_valid_position x y = true ∧ fallback = r.move_to x y) :
    r.followPathHead path fallback = r ∨
    ∃ x y, m.is_valid_position x y = true ∧ r.followPathHead path fallback = r.move_to x y := by
  cases path with
  | nil => exact hfb
  | cons next rest =>
    exact Or.inr ⟨next.1, next.2, hval next (List.mem_cons_self _ _), rfl⟩

theorem intelligent_random_move_shape (r : Robot) (m : Map) (rng : Rng) :
    r.intelligent_random_move m rng = r ∨
    ∃ x y, m.is_valid_position x y = true ∧
      r.intelligent_random_move m rng = r.move_to x y := by
  simp only [Robot.intelligent_random_move]
  split
  · exact Or.inl rfl
  · refine moveToListPick_shape r m _ _ ?_
    intro t ht
    have ht2 := mem_sortByKeyDesc _ _ _ ht
    rw [List.mem_map] at ht2
    obtain ⟨np, hnp, hnpe⟩ := ht2
    have hx : np.1 = t.1 := congrArg Prod.fst hnpe
    have hy : np.2 = t.2.1 := congrArg Prod.fst (congrArg Prod.snd hnpe)
    have hv := validNeighborMoves_valid r m np hnp
    rw [hx, hy] at hv
    exact hv

theorem explorer_specific_move_shape (r : Robot) (m : Map) (rng : Rng) :
    r.explorer_specific_move m rng = r ∨
    ∃ x y, m.is_valid_position x y = true ∧
      r.explorer_specific_move m rng = r.move_to x y := by
  simp only [Robot.explorer_specific_move]
  split
  · split
    · exact followPathHead_shape r m _ _ (find_path_elems_valid m _ _)
        (intelligent_random_move_shape r m rng)
    · exact intelligent_random_move_shape r m rng
  · exact intelligent_random_move_shape r m rng

theorem standard_explore_move_shape (r : Robot) (m : Map) (rng : Rng) :
    r.standard_explore_move m rng = r ∨
    ∃ x y, m.is_valid_position x y = true ∧
      r.standard_explore_move m rng = r.move_to x y := by
  have hrandom : (if (r.validNeighborMoves m).isEmpty then r
      else r.moveToPairPick (r.validNeighborMoves m)
        (rng.natA % (r.validNeighborMoves m).length)) = r ∨
      ∃ x y, m.is_valid_position x y = true ∧
        (if (r.validNeighborMoves m).isEmpty then r
          else r.moveToPairPick (r.validNeighborMoves m)
            (rng.natA % (r.validNeighborMoves m).length)) = r.move_to x y := by
    split
    · exact Or.inl rfl
    · exact moveToPairPick_shape r m _ _ (validNeighborMoves_valid r m)
  simp only [Robot.standard_explore_move]
  split
  · split
    · exact followPathHead_shape r m _ _ (find_path_elems_valid m _ _) hrandom
    · exact hrandom
  · exact hrandom

/-- Shape of every exploration move: the robot either stays put or moves to a
traversable cell (an A* waypoint or a filtered valid neighbour). -/
theorem explore_move_shape (r : Robot) (m : Map) (rng : Rng) :
    r.explore_move m rng = r ∨
    ∃ x y, m.is_valid_position x y = true ∧ r.explore_move m rng = r.move_to x y := by
  unfold Robot.explore_move
  split
  · exact explorer_specific_move_shape r m rng
  · exact standard_explore_move_shape r m rng

/-- Everything an exploration move leaves untouched, and the fact that it
never gains energy. -/
theorem explore_move_fields (r : Robot) (m : Map) (rng : Rng) :
    (r.explore_move m rng).minerals = r.minerals ∧
    (r.explore_move m rng).scientific_data = r.scientific_data ∧
    (r.explore_move m rng).mode = r.mode ∧
    (r.explore_move m rng).path_to_station = r.path_to_station ∧
    (r.explore_move m rng).max_energy = r.max_energy ∧
    (r.explore_move m rng).robot_type = r.robot_type ∧
    (r.explore_move m rng).home_station_x = r.home_station_x ∧
    (r.explore_move m rng).home_station_y = r.home_station_y ∧
    (r.explore_move m rng).memory = r.memory ∧
    (r.explore_move m rng).energy ≤ r.energy := by
  rcases explore_move_shape r m rng with he | ⟨x, y, _, he⟩ <;> rw [he]
  · exact ⟨rfl, rfl, rfl, rfl, rfl, rfl, rfl, rfl, rfl, le_refl _⟩
  · exact ⟨rfl, rfl, rfl, rfl, rfl, rfl, rfl, rfl, rfl, move_to_energy_le r x y⟩

theorem explore_move_pos_valid (r : Robot) (m : Map) (rng : Rng)
    (h : m.is_valid_position r.x r.y = true) :
    m.is_valid_position (r.explore_move m rng).x (r.explore_move m rng).y = true := by
  rcases explore_move_shape r m rng with he | ⟨x, y, hv, he⟩ <;> rw [he]
  · exact h
  · exact hv

theorem share_knowledge_monotone_refresh_witness :
    (∀ yy xx, (Station.new.global_memory yy xx).timestamp ≤
      ((Station.new.share_knowledge (scenarioRobot 1 10 10 3 4 9)).1.global_memory yy xx).timestamp) ∧
    (∀ yy xx, yy < MAP_SIZE → xx < MAP_SIZE →
      (Station.new.share_knowledge (scenarioRobot 1 10 10 3 4 9)).2.memory yy xx =
        (Station.new.share_knowledge (scenarioRobot 1 10 10 3 4 9)).1.global_memory yy xx) :=
  share_knowledge_monotone_refresh Station.new (scenarioRobot 1 10 10 3 4 9) rfl rfl
    (by
      intro yy xx _ _ _
      rfl)
    (by
      intro yy xx _ _ hne
      by_cases hcase : yy = 4 ∧ xx = 3
      · exact absurd hne (by rw [show (scenarioRobot 1 10 10 3 4 9).memory yy xx =
          { explored := true, timestamp := 9, robot_id := 1,
            robot_type := RobotType.Explorer } from by
            show (if yy = 4 ∧ xx = 3 then _ else _) = _
            rw [if_pos hcase]]; decide)
      · rw [show (scenarioRobot 1 10 10 3 4 9).memory yy xx = defaultTerrain from by
          show (if yy = 4 ∧ xx = 3 then _ else _) = _
          rw [if_neg hcase]])

/-! ### Map-level lemmas about resource consumption -/

theorem get_tile_bounds {m : Map} {x y : Nat} {t : TileType}
    (hm : m.get_tile x y = t) (hne : t ≠ TileType.Obstacle) :
    x < MAP_SIZE ∧ y < MAP_SIZE ∧ m.tiles y x = t := by
  unfold Map.get_tile at hm
  by_cases hb : MAP_SIZE ≤ x ∨ MAP_SIZE ≤ y
  · rw [if_pos hb] at hm
    exact absurd hm.symm hne
  · rw [if_neg hb] at hm
    push_neg at hb
    exact ⟨hb.1, hb.2, hm⟩

theorem consume_valid_eq (m : Map) (x y a b : Nat) :
    (m.consume_resource x y).is_valid_position a b = m.is_valid_position a b := by
  unfold Map.consume_resource
  by_cases hb : x < MAP_SIZE ∧ y < MAP_SIZE
  · rw [if_pos hb]
    have hgen : ∀ t : TileType, m.tiles y x = t → t ≠ TileType.Obstacle →
        ({ m with tiles := fun yy xx =>
            if yy = y ∧ xx = x then TileType.Empty else m.tiles yy xx } : Map).is_valid_position
          a b = m.is_valid_position a b := by
      intro t hmt hto
      unfold Map.is_valid_position
      dsimp only
      by_cases hc : b = y ∧ a = x
      · rw [if_pos hc]
        have hba : m.tiles b a = t := by rw [hc.1, hc.2]; exact hmt
        rw [hba]
        cases t with
        | Obstacle => exact absurd rfl hto
        | Empty => rfl
        | Energy => rfl
        | Mineral => rfl
        | Scientific => rfl
      · rw [if_neg hc]
    cases hmt : m.tiles y x with
    | Empty => rfl
    | Obstacle => rfl
    | Energy => exact hgen _ hmt (by decide)
    | Mineral => exact hgen _ hmt (by decide)
    | Scientific => exact hgen _ hmt (by decide)
  · rw [if_neg hb]

theorem consume_get_tile_empty {m : Map} {x y : Nat}
    (hres : m.get_tile x y = TileType.Energy ∨ m.get_tile x y = TileType.Mineral ∨
      m.get_tile x y = TileType.Scientific) :
    (m.consume_resource x y).get_tile x y = TileType.Empty := by
  have hb : x < MAP_SIZE ∧ y < MAP_SIZE ∧
      (m.tiles y x = TileType.Energy ∨ m.tiles y x = TileType.Mineral ∨
        m.tiles y x = TileType.Scientific) := by
    rcases hres with h | h | h
    · obtain ⟨h1, h2, h3⟩ := get_tile_bounds h (by decide)
      exact ⟨h1, h2, Or.inl h3⟩
    · obtain ⟨h1, h2, h3⟩ := get_tile_bounds h (by decide)
      exact ⟨h1, h2, Or.inr (Or.inl h3)⟩
    · obtain ⟨h1, h2, h3⟩ := get_tile_bounds h (by decide)
      exact ⟨h1, h2, Or.inr (Or.inr h3)⟩
  have hnb : ¬ (MAP_SIZE ≤ x ∨ MAP_SIZE ≤ y) := by
    push_neg
    exact ⟨hb.1, hb.2.1⟩
  unfold Map.consume_resource
  rw [if_pos ⟨hb.1, hb.2.1⟩]
  have hgoal : ∀ t : TileType, m.tiles y x = t →
      (t = TileType.Energy ∨ t = TileType.Mineral ∨ t = TileType.Scientific) →
      ((match (motive := TileType → Map) t with
        | TileType.Energy | TileType.Mineral | TileType.Scientific =>
          { m with tiles := fun yy xx =>
              if yy = y ∧ xx = x then TileType.Empty else m.tiles yy xx }
        | _ => m) : Map).get_tile x y = TileType.Empty := by
    intro t hmt ht
    rcases ht with h | h | h <;> subst h <;>
      · unfold Map.get_tile
        rw [if_neg hnb]
        dsimp only
        rw [if_pos ⟨rfl, rfl⟩]
  rw [show m.tiles y x = m.tiles y x from rfl]
  rcases hb.2.2 with h | h | h <;> rw [h] <;> exact hgoal _ h (by rw [h] at *; simp)

theorem consume_noop {m : Map} {x y : Nat}
    (h : m.get_tile x y = TileType.Empty ∨ m.get_tile x y = TileType.Obstacle) :
    m.consume_resource x y = m := by
  unfold Map.consume_resource
  by_cases hb : x < MAP_SIZE ∧ y < MAP_SIZE
  · rw [if_pos hb]
    have ht : m.tiles y x = TileType.Empty ∨ m.tiles y x = TileType.Obstacle := by
      rcases h with h | h
      · unfold Map.get_tile at h
        rw [if_neg (by push_neg; exact hb)] at h
        exact Or.inl h
      · unfold Map.get_tile at h
        rw [if_neg (by push_neg; exact hb)] at h
        exact Or.inr h
    rcases ht with ht | ht <;> rw [ht]
  · rw [if_neg hb]

theorem consume_idem (m : Map) (x y : Nat) :
    (m.consume_resource x y).consume_resource x y = m.consume_resource x y := by
  by_cases hb : x < MAP_SIZE ∧ y < MAP_SIZE
  · cases hmt : m.tiles y x with
    | Empty =>
      have h1 : m.consume_resource x y = m := by
        unfold Map.consume_resource
        rw [if_pos hb, hmt]
      rw [h1, h1]
    | Obstacle =>
      have h1 : m.consume_resource x y = m := by
        unfold Map.consume_resource
        rw [if_pos hb, hmt]
      rw [h1, h1]
    | Energy =>
      apply consume_noop
      left
      apply consume_get_tile_empty
      left
      unfold Map.get_tile
      rw [if_neg (by push_neg; exact hb)]
      exact hmt
    | Mineral =>
      apply consume_noop
      left
      apply consume_get_tile_empty
      right; left
      unfold Map.get_tile
      rw [if_neg (by push_neg; exact hb)]
      exact hmt
    | Scientific =>
      apply consume_noop
      left
      apply consume_get_tile_empty
      right; right
      unfold Map.get_tile
      rw [if_neg (by push_neg; exact hb)]
      exact hmt
  · have h1 : m.consume_resource x y = m := by
      unfold Map.consume_resource
      rw [if_neg hb]
    rw [h1, h1]

/-! ### Lemmas about the collection step and the perception pass -/

theorem update_memory_fields (r : Robot) (st : Station) :
    (r.update_memory st).x = r.x ∧ (r.update_memory st).y = r.y ∧
    (r.update_memory st).energy = r.energy ∧
    (r.update_memory st).max_energy = r.max_energy ∧
    (r.update_memory st).minerals = r.minerals ∧
    (r.update_memory st).scientific_data = r.scientific_data ∧
    (r.update_memory st).robot_type = r.robot_type ∧
    (r.update_memory st).mode = r.mode ∧
    (r.update_memory st).path_to_station = r.path_to_station ∧
    (r.update_memory st).home_station_x = r.home_station_x ∧
    (r.update_memory st).home_station_y = r.home_station_y :=
  ⟨rfl, rfl, rfl, rfl, rfl, rfl, rfl, rfl, rfl, rfl, rfl⟩

theorem collect_mineral_spec (r : Robot) (m : Map) (rng : Rng)
    (ht : r.robot_type = RobotType.MineralCollector)
    (hm : m.get_tile r.x r.y = TileType.Mineral) :
    (r.collect_resources m rng).1.minerals = r.minerals + 1 ∧
    (r.collect_resources m rng).1.x = r.x ∧
    (r.collect_resources m rng).1.y = r.y ∧
    (r.collect_resources m rng).1.robot_type = r.robot_type ∧
    (r.collect_resources m rng).1.energy = r.energy ∧
    (r.collect_resources m rng).2 = m.consume_resource r.x r.y := by
  simp only [Robot.collect_resources, hm, ht]
  split <;> exact ⟨rfl, rfl, rfl, rfl, rfl, rfl⟩

theorem collect_energy_first_spec (r : Robot) (m : Map) (rng : Rng)
    (ht : r.robot_type = RobotType.EnergyCollector)
    (hm : m.get_tile r.x r.y = TileType.Energy)
    (hlt : r.energy < r.max_energy) :
    (r.collect_resources m rng).1.x = r.x ∧
    (r.collect_resources m rng).1.y = r.y ∧
    (r.collect_resources m rng).1.robot_type = r.robot_type ∧
    (r.collect_resources m rng).2 = m.consume_resource r.x r.y := by
  simp only [Robot.collect_resources, hm, ht]
  rw [if_pos hlt]
  split <;> exact ⟨rfl, rfl, rfl, rfl⟩

theorem collect_on_empty (r : Robot) (m : Map) (rng : Rng)
    (hm : m.get_tile r.x r.y = TileType.Empty) :
    (r.collect_resources m rng).1.minerals = r.minerals ∧
    (r.collect_resources m rng).1.scientific_data = r.scientific_data ∧
    (r.collect_resources m rng).1.energy ≤ r.energy := by
  simp only [Robot.collect_resources, hm]
  cases ht : r.robot_type <;>
    · split
      · exact ⟨(explore_move_fields r m rng).1, (explore_move_fields r m rng).2.1,
          (explore_move_fields r m rng).2.2.2.2.2.2.2.2.2⟩
      · exact ⟨(explore_move_fields r m rng).1, (explore_move_fields r m rng).2.1,
          (explore_move_fields r m rng).2.2.2.2.2.2.2.2.2⟩

theorem collect_resources_props (r : Robot) (m : Map) (rng : Rng) :
    (r.collect_resources m rng).1.max_energy = r.max_energy ∧
    (r.collect_resources m rng).1.home_station_x = r.home_station_x ∧
    (r.collect_resources m rng).1.home_station_y = r.home_station_y ∧
    ((r.collect_resources m rng).2 = m ∨
      (r.collect_resources m rng).2 = m.consume_resource r.x r.y) ∧
    (r.energy ≤ r.max_energy → (r.collect_resources m rng).1.energy ≤ r.max_energy) ∧
    (m.is_valid_position r.x r.y = true →
      (r.collect_resources m rng).2.is_valid_position
        (r.collect_resources m rng).1.x (r.collect_resources m rng).1.y = true) ∧
    (∀ p ∈ (r.collect_resources m rng).1.path_to_station,
      (r.collect_resources m rng).2.is_valid_position p.1 p.2 = true) := by
  have hfx := explore_move_fields r m rng
  simp only [Robot.collect_resources]
  split <;>
  · split
    · -- EnergyCollector on an Energy tile
      split
      · -- below capacity: collect and consume
        refine ⟨rfl, rfl, rfl, Or.inr rfl, ?_, ?_, ?_⟩
        · intro _
          dsimp only
          split
          · exact le_refl _
          · next hgt => exact le_of_not_lt hgt
        · intro hpos
          rw [consume_valid_eq]
          exact hpos
        · intro p hp
          exact find_path_elems_valid _ _ _ p hp
      · -- already at capacity: nothing happens before the retarget
        exact ⟨rfl, rfl, rfl, Or.inl rfl, fun he => he, fun hpos => hpos,
          fun p hp => find_path_elems_valid _ _ _ p hp⟩
    · -- MineralCollector on a Mineral tile
      refine ⟨rfl, rfl, rfl, Or.inr rfl, fun he => he, ?_, ?_⟩
      · intro hpos
        rw [consume_valid_eq]
        exact hpos
      · intro p hp
        exact find_path_elems_valid _ _ _ p hp
    · -- ScientificCollector on a Scientific tile
      refine ⟨rfl, rfl, rfl, Or.inr rfl, fun he => he, ?_, ?_⟩
      · intro hpos
        rw [consume_valid_eq]
        exact hpos
      · intro p hp
        exact find_path_elems_valid _ _ _ p hp
    · -- any other combination: exploration move on the untouched map
      refine ⟨hfx.2.2.2.2.1, hfx.2.2.2.2.2.2.1, hfx.2.2.2.2.2.2.2.1, Or.inl rfl, ?_, ?_, ?_⟩
      · intro he
        exact le_trans hfx.2.2.2.2.2.2.2.2.2 he
      · intro hpos
        exact explore_move_pos_valid r m rng hpos
      · intro p hp
        exact find_path_elems_valid _ _ _ p hp

/-! ### Lemmas about the stages of the per-tick state machine -/

theorem share_knowledge_robot_shape (st : Station) (r : Robot) :
    ∃ mem, (st.share_knowledge r).2 = { r with memory := mem } := by
  unfold Station.share_knowledge
  split
  · exact ⟨_, rfl⟩
  · exact ⟨r.memory, rfl⟩

theorem updateAtHome_not_home (r4 : Robot) (m0 : Map) (st0 : Station)
    (h : ¬ (r4.x = r4.home_station_x ∧ r4.y = r4.home_station_y)) :
    r4.updateAtHome m0 st0 = (r4, st0) := by
  unfold Robot.updateAtHome
  rw [if_neg h]

theorem syncAtStation_robot_shape (rb : Robot) (stA : Station) :
    ∃ mem ls, (rb.syncAtStation stA).2 = { rb with memory := mem, last_sync_time := ls } := by
  unfold Robot.syncAtStation
  split
  · obtain ⟨mem, hmem⟩ := share_knowledge_robot_shape stA rb
    refine ⟨mem, stA.current_time, ?_⟩
    dsimp only
    rw [hmem]
  · exact ⟨rb.memory, rb.last_sync_time, rfl⟩

theorem homeRedispatch_props (rc : Robot) (m0 : Map) :
    (rc.homeRedispatch m0).x = rc.x ∧
    (rc.homeRedispatch m0).y = rc.y ∧
    (rc.homeRedispatch m0).energy = rc.energy ∧
    (rc.homeRedispatch m0).max_energy = rc.max_energy ∧
    (rc.homeRedispatch m0).home_station_x = rc.home_station_x ∧
    (rc.homeRedispatch m0).home_station_y = rc.home_station_y ∧
    ((rc.homeRedispatch m0).path_to_station = rc.path_to_station ∨
      ∀ p ∈ (rc.homeRedispatch m0).path_to_station,
        m0.is_valid_position p.1 p.2 = true) := by
  unfold Robot.homeRedispatch
  split
  · split
    · exact ⟨rfl, rfl, rfl, rfl, rfl, rfl, Or.inl rfl⟩
    · exact ⟨rfl, rfl, rfl, rfl, rfl, rfl, Or.inl rfl⟩
  · split
    · refine ⟨rfl, rfl, rfl, rfl, rfl, rfl, Or.inr ?_⟩
      intro p hp
      exact find_path_elems_valid _ _ _ p hp
    · exact ⟨rfl, rfl, rfl, rfl, rfl, rfl, Or.inl rfl⟩

theorem updateAtHome_shape (r4 : Robot) (m0 : Map) (st0 : Station) :
    r4.updateAtHome m0 st0 = (r4, st0) ∨
    ∃ mem ls, (r4.updateAtHome m0 st0).1 =
      Robot.homeRedispatch
        { r4 with
          energy := r4.max_energy, minerals := 0,
          scientific_data := 0, memory := mem, last_sync_time := ls } m0 := by
  unfold Robot.updateAtHome
  split
  · right
    obtain ⟨mem, ls, hsync⟩ := syncAtStation_robot_shape
      { r4 with energy := r4.max_energy, minerals := 0, scientific_data := 0 }
      (st0.deposit_resources r4.minerals r4.scientific_data)
    refine ⟨mem, ls, ?_⟩
    dsimp only
    rw [hsync]
  · exact Or.inl rfl

theorem updateAtHome_props (r4 : Robot) (m0 : Map) (st0 : Station) :
    (r4.updateAtHome m0 st0).1.x = r4.x ∧
    (r4.updateAtHome m0 st0).1.y = r4.y ∧
    (r4.updateAtHome m0 st0).1.max_energy = r4.max_energy ∧
    (r4.updateAtHome m0 st0).1.home_station_x = r4.home_station_x ∧
    (r4.updateAtHome m0 st0).1.home_station_y = r4.home_station_y ∧
    ((r4.updateAtHome m0 st0).1.energy = r4.energy ∨
      (r4.updateAtHome m0 st0).1.energy = r4.max_energy) ∧
    ((r4.updateAtHome m0 st0).1.path_to_station = r4.path_to_station ∨
      ∀ p ∈ (r4.updateAtHome m0 st0).1.path_to_station,
        m0.is_valid_position p.1 p.2 = true) := by
  rcases updateAtHome_shape r4 m0 st0 with h | ⟨mem, ls, h⟩
  · rw [h]
    exact ⟨rfl, rfl, rfl, rfl, rfl, Or.inl rfl, Or.inl rfl⟩
  · rw [h]
    have hd := homeRedispatch_props
      { r4 with
        energy := r4.max_energy, minerals := 0,
        scientific_data := 0, memory := mem, last_sync_time := ls } m0
    refine ⟨hd.1.trans rfl, hd.2.1.trans rfl, hd.2.2.2.1.trans rfl,
      hd.2.2.2.2.1.trans rfl, hd.2.2.2.2.2.1.trans rfl, Or.inr (hd.2.2.1.trans rfl), ?_⟩
    rcases hd.2.2.2.2.2.2 with hp | hp
    · exact Or.inl (hp.trans rfl)
    · exact Or.inr hp

theorem updateMode_props (r5 : Robot) (m0 : Map) (st1 : Station) (rng : Rng) :
    (r5.updateMode m0 st1 rng).1.max_energy = r5.max_energy ∧
    (r5.updateMode m0 st1 rng).1.home_station_x = r5.home_station_x ∧
    (r5.updateMode m0 st1 rng).1.home_station_y = r5.home_station_y ∧
    ((r5.updateMode m0 st1 rng).2.1 = m0 ∨
      (r5.updateMode m0 st1 rng).2.1 = m0.consume_resource r5.x r5.y) ∧
    (r5.energy ≤ r5.max_energy → (r5.updateMode m0 st1 rng).1.energy ≤ r5.max_energy) ∧
    (m0.is_valid_position r5.x r5.y = true →
      (∀ p ∈ r5.path_to_station, m0.is_valid_position p.1 p.2 = true) →
      (r5.updateMode m0 st1 rng).2.1.is_valid_position
        (r5.updateMode m0 st1 rng).1.x (r5.updateMode m0 st1 rng).1.y = true ∧
      ∀ p ∈ (r5.updateMode m0 st1 rng).1.path_to_station,
        (r5.updateMode m0 st1 rng).2.1.is_valid_position p.1 p.2 = true) := by
  have hfx := explore_move_fields r5 m0 rng
  have hcp := collect_resources_props r5 m0 rng
  simp only [Robot.updateMode]
  split
  · -- Idle
    split
    · exact ⟨rfl, rfl, rfl, Or.inl rfl, fun he => he, fun hpos hpath => ⟨hpos, hpath⟩⟩
    · split <;>
        exact ⟨rfl, rfl, rfl, Or.inl rfl, fun he => he, fun hpos hpath => ⟨hpos, hpath⟩⟩
  · -- Exploring
    split
    · -- Explorer finished: head home
      exact ⟨rfl, rfl, rfl, Or.inl rfl, fun he => he,
        fun hpos hpath => ⟨hpos, fun p hp => find_path_elems_valid _ _ _ p hp⟩⟩
    · split
      · -- an in-range resource flips the collector into Collecting
        rename_i r6 heq
        split at heq
        · split at heq
          · split at heq
            · injection heq with heq2
              subst heq2
              exact ⟨rfl, rfl, rfl, Or.inl rfl, fun he => he,
                fun hpos hpath => ⟨hpos, fun p hp => find_path_elems_valid _ _ _ p hp⟩⟩
            · exact Option.noConfusion heq
          · exact Option.noConfusion heq
        · exact Option.noConfusion heq
      · -- exploration move
        refine ⟨hfx.2.2.2.2.1, hfx.2.2.2.2.2.2.1, hfx.2.2.2.2.2.2.2.1, Or.inl rfl, ?_, ?_⟩
        · intro he
          exact le_trans hfx.2.2.2.2.2.2.2.2.2 he
        · intro hpos hpath
          refine ⟨explore_move_pos_valid r5 m0 rng hpos, ?_⟩
          intro p hp
          have hp2 : p ∈ (r5.explore_move m0 rng).path_to_station := hp
          rw [hfx.2.2.2.1] at hp2
          exact hpath p hp2
  · -- Collecting
    split
    · -- standing on a matching resource: collect
      refine ⟨hcp.1, hcp.2.1, hcp.2.2.1, hcp.2.2.2.1, ?_, ?_⟩
      · intro he
        exact hcp.2.2.2.2.1 he
      · intro hpos hpath
        exact ⟨hcp.2.2.2.2.2.1 hpos, fun p hp => hcp.2.2.2.2.2.2 p hp⟩
    · split
      · -- follow the stored path
        rename_i next restPath heq
        refine ⟨rfl, rfl, rfl, Or.inl rfl, ?_, ?_⟩
        · intro he
          exact le_trans (move_to_energy_le _ _ _) he
        · intro hpos hpath
          have hmem : next ∈ r5.path_to_station := by
            rw [heq]
            exact List.mem_cons_self _ _
          refine ⟨hpath next hmem, ?_⟩
          intro p hp
          have hp2 : p ∈ restPath := hp
          exact hpath p (by rw [heq]; exact List.mem_cons_of_mem _ hp2)
      · -- empty path: retarget
        split
        · exact ⟨rfl, rfl, rfl, Or.inl rfl, fun he => he,
            fun hpos hpath => ⟨hpos, fun p hp => find_path_elems_valid _ _ _ p hp⟩⟩
        · exact ⟨rfl, rfl, rfl, Or.inl rfl, fun he => he,
            fun hpos hpath => ⟨hpos, fun p hp => find_path_elems_valid _ _ _ p hp⟩⟩
  · -- ReturnToStation
    split
    · rename_i next restPath heq
      refine ⟨rfl, rfl, rfl, Or.inl rfl, ?_, ?_⟩
      · intro he
        exact le_trans (move_to_energy_le _ _ _) he
      · intro hpos hpath
        have hmem : next ∈ r5.path_to_station := by
          rw [heq]
          exact List.mem_cons_self _ _
        refine ⟨hpath next hmem, ?_⟩
        intro p hp
        have hp2 : p ∈ restPath := hp
        exact hpath p (by rw [heq]; exact List.mem_cons_of_mem _ hp2)
    · split
      · -- away with an empty path: re-plan
        split
        · rename_i next restPath heq
          refine ⟨rfl, rfl, rfl, Or.inl rfl, ?_, ?_⟩
          · intro he
            exact le_trans (move_to_energy_le _ _ _) he
          · intro hpos hpath
            have hfp : find_path m0 (r5.x, r5.y) (r5.home_station_x, r5.home_station_y)
                = next :: restPath := heq
            refine ⟨?_, ?_⟩
            · have hmem : next ∈ find_path m0 (r5.x, r5.y)
                  (r5.home_station_x, r5.home_station_y) := by
                rw [hfp]
                exact List.mem_cons_self _ _
              exact find_path_elems_valid _ _ _ next hmem
            · intro p hp
              have hp2 : p ∈ restPath := hp
              have hmem : p ∈ find_path m0 (r5.x, r5.y)
                  (r5.home_station_x, r5.home_station_y) := by
                rw [hfp]
                exact List.mem_cons_of_mem _ hp2
              exact find_path_elems_valid _ _ _ p hmem
        · rename_i heq
          refine ⟨rfl, rfl, rfl, Or.inl rfl, fun he => he, ?_⟩
          intro hpos hpath
          refine ⟨hpos, ?_⟩
          intro p hp
          have hfp : find_path m0 (r5.x, r5.y) (r5.home_station_x, r5.home_station_y)
              = [] := heq
          have hp2 : p ∈ find_path m0 (r5.x, r5.y)
              (r5.home_station_x, r5.home_station_y) := hp
          rw [hfp] at hp2
          exact absurd hp2 (List.not_mem_nil p)
      · -- already home
        exact ⟨rfl, rfl, rfl, Or.inl rfl, fun he => he, fun hpos hpath => ⟨hpos, hpath⟩⟩

theorem valid_transfer {m0 mm : Map}
    (h : mm = m0 ∨ ∃ a b, mm = m0.consume_resource a b)
    {x y : Nat} (hv : m0.is_valid_position x y = true) :
    mm.is_valid_position x y = true := by
  rcases h with h | ⟨a, b, h⟩
  · rw [h]
    exact hv
  · rw [h, consume_valid_eq]
    exact hv

theorem gateToStation_posInv (r2 : Robot) (m : Map) (hp : RobotPosInv m r2) :
    RobotPosInv m (r2.gateToStation m) := by
  obtain ⟨h1, h2, h3⟩ := hp
  refine ⟨?_, ?_, ?_⟩
  · rw [(gateToStation_fields r2 m).1, (gateToStation_fields r2 m).2.1]
    exact h1
  · rw [(gateToStation_fields r2 m).2.2.2.2.2.2.2.1,
      (gateToStation_fields r2 m).2.2.2.2.2.2.2.2.1]
    exact h2
  · rcases gateToStation_path r2 m with h | h
    · rw [h]
      exact h3
    · intro p hpp
      rw [h] at hpp
      exact find_path_elems_valid _ _ _ p hpp

theorem updateTail_from (r4 r : Robot) (m0 : Map) (st0 : Station) (rng : Rng)
    (hx : r4.x = r.x) (hy : r4.y = r.y)
    (hmax : r4.max_energy = r.max_energy)
    (hhx : r4.home_station_x = r.home_station_x)
    (hhy : r4.home_station_y = r.home_station_y)
    (hen : r.energy ≤ r.max_energy → r4.energy ≤ r.max_energy)
    (hpa : RobotPosInv m0 r → RobotPosInv m0 r4) :
    ((r4.updateAtHome m0 st0).1.updateMode m0 (r4.updateAtHome m0 st0).2 rng).1.max_energy
      = r.max_energy ∧
    ((r4.updateAtHome m0 st0).1.updateMode m0
      (r4.updateAtHome m0 st0).2 rng).1.home_station_x = r.home_station_x ∧
    ((r4.updateAtHome m0 st0).1.updateMode m0
      (r4.updateAtHome m0 st0).2 rng).1.home_station_y = r.home_station_y ∧
    (((r4.updateAtHome m0 st0).1.updateMode m0 (r4.updateAtHome m0 st0).2 rng).2.1 = m0 ∨
      ∃ a b, ((r4.updateAtHome m0 st0).1.updateMode m0
        (r4.updateAtHome m0 st0).2 rng).2.1 = m0.consume_resource a b) ∧
    (r.energy ≤ r.max_energy →
      ((r4.updateAtHome m0 st0).1.updateMode m0
        (r4.updateAtHome m0 st0).2 rng).1.energy ≤ r.max_energy) ∧
    (RobotPosInv m0 r →
      RobotPosInv ((r4.updateAtHome m0 st0).1.updateMode m0 (r4.updateAtHome m0 st0).2 rng).2.1
        ((r4.updateAtHome m0 st0).1.updateMode m0 (r4.updateAtHome m0 st0).2 rng).1) := by
  obtain ⟨hx5, hy5, hmax5, hhx5, hhy5, hen5, hpath5⟩ := updateAtHome_props r4 m0 st0
  obtain ⟨hM1, hM2, hM3, hM4, hM5, hM6⟩ :=
    updateMode_props (r4.updateAtHome m0 st0).1 m0 (r4.updateAtHome m0 st0).2 rng
  have hMor : ((r4.updateAtHome m0 st0).1.updateMode m0
        (r4.updateAtHome m0 st0).2 rng).2.1 = m0 ∨
      ∃ a b, ((r4.updateAtHome m0 st0).1.updateMode m0
        (r4.updateAtHome m0 st0).2 rng).2.1 = m0.consume_resource a b := by
    rcases hM4 with h | h
    · exact Or.inl h
    · exact Or.inr ⟨_, _, h⟩
  refine ⟨?_, ?_, ?_, hMor, ?_, ?_⟩
  · rw [hM1, hmax5, hmax]
  · rw [hM2, hhx5, hhx]
  · rw [hM3, hhy5, hhy]
  · intro he
    have h1 : (r4.updateAtHome m0 st0).1.energy ≤ (r4.updateAtHome m0 st0).1.max_energy := by
      rw [hmax5]
      rcases hen5 with h | h
      · rw [h, hmax]
        exact hen he
      · rw [h]
    have h2 := hM5 h1
    rw [hmax5, hmax] at h2
    exact h2
  · intro hp
    have hp4 := hpa hp
    have hpos5 : m0.is_valid_position (r4.updateAtHome m0 st0).1.x
        (r4.updateAtHome m0 st0).1.y = true := by
      rw [hx5, hy5]
      exact hp4.1
    have hpath5v : ∀ p ∈ (r4.updateAtHome m0 st0).1.path_to_station,
        m0.is_valid_position p.1 p.2 = true := by
      rcases hpath5 with h | h
      · rw [h]
        exact hp4.2.2
      · exact h
    have hres := hM6 hpos5 hpath5v
    have hhome0 : m0.is_valid_position
        ((r4.updateAtHome m0 st0).1.updateMode m0
          (r4.updateAtHome m0 st0).2 rng).1.home_station_x
        ((r4.updateAtHome m0 st0).1.updateMode m0
          (r4.updateAtHome m0 st0).2 rng).1.home_station_y = true := by
      rw [hM2, hhx5, hM3, hhy5]
      exact hp4.2.1
    exact ⟨hres.1, valid_transfer hMor hhome0, hres.2⟩

theorem update_props (r : Robot) (m : Map) (st : Station) (rng : Rng) :
    (r.update m st rng).1.max_energy = r.max_energy ∧
    (r.update m st rng).1.home_station_x = r.home_station_x ∧
    (r.update m st rng).1.home_station_y = r.home_station_y ∧
    ((r.update m st rng).2.1 = m ∨
      ∃ a b, (r.update m st rng).2.1 = m.consume_resource a b) ∧
    (r.energy ≤ r.max_energy → (r.update m st rng).1.energy ≤ r.max_energy) ∧
    (RobotPosInv m r → RobotPosInv (r.update m st rng).2.1 (r.update m st rng).1) := by
  simp only [Robot.update]
  split <;>
  · split
    · -- the below-30-percent collector gate
      dsimp only
      refine ⟨(gateToStation_fields _ m).2.2.2.1, (gateToStation_fields _ m).2.2.2.2.2.2.2.1,
        (gateToStation_fields _ m).2.2.2.2.2.2.2.2.1, Or.inl rfl, ?_, ?_⟩
      · intro he
        refine le_trans (le_of_eq (gateToStation_fields _ m).2.2.1) ?_
        exact le_trans (by linarith : r.energy - (1 / 10 : ℚ) ≤ r.energy) he
      · intro hp
        refine gateToStation_posInv _ m ?_
        exact hp
    · split
      · -- the below-60-percent scientific gate
        dsimp only
        refine ⟨(gateToStation_fields _ m).2.2.2.1, (gateToStation_fields _ m).2.2.2.2.2.2.2.1,
          (gateToStation_fields _ m).2.2.2.2.2.2.2.2.1, Or.inl rfl, ?_, ?_⟩
        · intro he
          refine le_trans (le_of_eq (gateToStation_fields _ m).2.2.1) ?_
          exact le_trans (by linarith : r.energy - (1 / 10 : ℚ) ≤ r.energy) he
        · intro hp
          refine gateToStation_posInv _ m ?_
          exact hp
      · -- the main body: return trigger, resource fallback, home block, dispatch
        split
        all_goals try split
        all_goals try split
        all_goals
          first
          | exact updateTail_from _ r m st rng rfl rfl rfl rfl rfl
              (fun he => le_trans (le_trans
                (by linarith : r.energy - (1 / 10 : ℚ) ≤ r.energy) he) (le_refl _))
              (fun hp => ⟨hp.1, hp.2.1, fun p hpp => find_path_elems_valid _ _ _ p hpp⟩)
          | exact updateTail_from _ r m st rng rfl rfl rfl rfl rfl
              (fun he => le_trans (le_trans
                (by linarith : r.energy - (1 / 10 : ℚ) ≤ r.energy) he) (le_refl _))
              (fun hp => hp)
          | exact updateTail_from _ r m st rng (gateToStation_fields _ m).1
              (gateToStation_fields _ m).2.1 (gateToStation_fields _ m).2.2.2.1
              (gateToStation_fields _ m).2.2.2.2.2.2.2.1
              (gateToStation_fields _ m).2.2.2.2.2.2.2.2.1
              (fun he => le_trans (le_of_eq (gateToStation_fields _ m).2.2.1)
                (le_trans (by linarith : r.energy - (1 / 10 : ℚ) ≤ r.energy) he))
              (fun hp => gateToStation_posInv _ m
                ⟨hp.1, hp.2.1, fun p hpp => find_path_elems_valid _ _ _ p hpp⟩)
          | exact updateTail_from _ r m st rng (gateToStation_fields _ m).1
              (gateToStation_fields _ m).2.1 (gateToStation_fields _ m).2.2.2.1
              (gateToStation_fields _ m).2.2.2.2.2.2.2.1
              (gateToStation_fields _ m).2.2.2.2.2.2.2.2.1
              (fun he => le_trans (le_of_eq (gateToStation_fields _ m).2.2.1)
                (le_trans (by linarith : r.energy - (1 / 10 : ℚ) ≤ r.energy) he))
              (fun hp => gateToStation_posInv _ m hp)

theorem rescue_fires (r : Robot) (h : r.energy ≤ 0) :
    rescue r =
      { r with
        x := r.home_station_x, y := r.home_station_y,
        energy := r.max_energy / 2, mode := RobotMode.Idle } := by
  unfold rescue
  rw [if_pos h]

theorem rescue_skips (r : Robot) (h : ¬ r.energy ≤ 0) : rescue r = r := by
  unfold rescue
  rw [if_neg h]

theorem rescue_posInv (mm : Map) (r : Robot) (hp : RobotPosInv mm r) :
    RobotPosInv mm (rescue r) := by
  unfold rescue
  split
  · exact ⟨hp.2.1, hp.2.1, hp.2.2⟩
  · exact hp

theorem is_valid_position_facts {m : Map} {x y : Nat}
    (h : m.is_valid_position x y = true) :
    x < MAP_SIZE ∧ y < MAP_SIZE ∧ m.get_tile x y ≠ TileType.Obstacle := by
  obtain ⟨h1, h2, h3⟩ := is_valid_position_iff.mp h
  refine ⟨h1, h2, ?_⟩
  unfold Map.get_tile
  rw [if_neg (by push_neg; exact ⟨h1, h2⟩)]
  exact h3

/-- A simple concrete robot for the claim witnesses: a mineral collector
standing on its station cell of the all-empty test map. -/
def testRobotHome : Robot :=
  Robot.new_with_memory 10 10 RobotType.MineralCollector 1 10 10 (fun _ _ => defaultTerrain)

/-- A fixed random oracle for the claim witnesses. -/
def testRng : Rng :=
  { natA := 0, natB := 0, boolA := false, boolB := false }

/-- C9: after a full simulation-loop iteration (update followed by the
emergency-rescue check) the energy of a robot that started within its
capacity lies in `[0, max_energy]`; and whenever the update left the energy
at or below zero, the rescue fired: energy is half capacity, the position is
the home station and the mode is `Idle`. -/
theorem energy_within_bounds (r : Robot) (m : Map) (st : Station) (rng : Rng)
    (he : r.energy ≤ r.max_energy) (hm : 0 ≤ r.max_energy) :
    0 ≤ (updateAndRescue r m st rng).1.energy ∧
    (updateAndRescue r m st rng).1.energy ≤ (updateAndRescue r m st rng).1.max_energy ∧
    ((r.update m st rng).1.energy ≤ 0 →
      (updateAndRescue r m st rng).1.energy = r.max_energy / 2 ∧
      (updateAndRescue r m st rng).1.x = r.home_station_x ∧
      (updateAndRescue r m st rng).1.y = r.home_station_y ∧
      (updateAndRescue r m st rng).1.mode = RobotMode.Idle) := by
  obtain ⟨hmax, hhx, hhy, _, hen, _⟩ := update_props r m st rng
  have hu := hen he
  have hUAR : (updateAndRescue r m st rng).1 = rescue (r.update m st rng).1 := rfl
  by_cases hz : (r.update m st rng).1.energy ≤ 0
  · rw [hUAR, rescue_fires _ hz]
    dsimp only
    rw [hmax]
    refine ⟨by linarith, by linarith, ?_⟩
    intro _
    exact ⟨rfl, hhx, hhy, rfl⟩
  · rw [hUAR, rescue_skips _ hz]
    have hpos : 0 < (r.update m st rng).1.energy := lt_of_not_le hz
    refine ⟨le_of_lt hpos, ?_, ?_⟩
    · rw [hmax]
      exact hu
    · intro hcon
      exact absurd hcon hz

/-- Witness for `energy_within_bounds`: the concrete mineral collector on the
all-empty map starts at full energy, so both hypotheses hold. -/
theorem energy_within_bounds_witness :
    0 ≤ (updateAndRescue testRobotHome testMapEmpty Station.new testRng).1.energy ∧
    (updateAndRescue testRobotHome testMapEmpty Station.new testRng).1.energy ≤
      (updateAndRescue testRobotHome testMapEmpty Station.new testRng).1.max_energy :=
  ⟨(energy_within_bounds testRobotHome testMapEmpty Station.new testRng
      (by decide) (by decide)).1,
    (energy_within_bounds testRobotHome testMapEmpty Station.new testRng
      (by decide) (by decide)).2.1⟩

/-- C8: the position invariant (the robot stands on an in-bounds,
non-obstacle cell, so does its home station, and so does every waypoint of
its stored path) holds of a robot freshly created on a traversable station
cell and is preserved by every full simulation-loop iteration, with the
map evolving only by resource consumption; in particular the position after
an iteration is in bounds and its tile is not an obstacle. -/
theorem position_always_valid (r : Robot) (m : Map) (st : Station) (rng : Rng)
    (h : RobotPosInv m r) :
    RobotPosInv (updateAndRescue r m st rng).2.1 (updateAndRescue r m st rng).1 ∧
    (updateAndRescue r m st rng).1.x < MAP_SIZE ∧
    (updateAndRescue r m st rng).1.y < MAP_SIZE ∧
    (updateAndRescue r m st rng).2.1.get_tile (updateAndRescue r m st rng).1.x
      (updateAndRescue r m st rng).1.y ≠ TileType.Obstacle ∧
    (∀ (x y id : Nat) (rt : RobotType) (mem : Nat → Nat → TerrainData),
      m.is_valid_position x y = true →
      RobotPosInv m (Robot.new_with_memory x y rt id x y mem)) := by
  have hinv := (update_props r m st rng).2.2.2.2.2 h
  have hUAR : (updateAndRescue r m st rng).1 = rescue (r.update m st rng).1 := rfl
  have hUARm : (updateAndRescue r m st rng).2.1 = (r.update m st rng).2.1 := rfl
  have hres : RobotPosInv (updateAndRescue r m st rng).2.1 (updateAndRescue r m st rng).1 := by
    rw [hUAR, hUARm]
    exact rescue_posInv _ _ hinv
  obtain ⟨hb1, hb2, hb3⟩ := is_valid_position_facts hres.1
  refine ⟨hres, hb1, hb2, hb3, ?_⟩
  intro x y id rt mem hv
  exact ⟨hv, hv, fun p hp => absurd hp (List.not_mem_nil p)⟩

/-- Witness for `position_always_valid`: the concrete mineral collector on
its station cell of the all-empty map satisfies the position invariant. -/
theorem position_always_valid_witness :
    RobotPosInv (updateAndRescue testRobotHome testMapEmpty Station.new testRng).2.1
      (updateAndRescue testRobotHome testMapEmpty Station.new testRng).1 ∧
    (updateAndRescue testRobotHome testMapEmpty Station.new testRng).1.x < MAP_SIZE :=
  ⟨(position_always_valid testRobotHome testMapEmpty Station.new testRng
      ⟨by decide, by decide, by decide⟩).1,
    (position_always_valid testRobotHome testMapEmpty Station.new testRng
      ⟨by decide, by decide, by decide⟩).2.1⟩

theorem should_return_iff (r : Robot) :
    r.should_return_to_station = true ↔
      ((r.robot_type = RobotType.Explorer ∧ r.is_exploration_complete = true) ∨
        r.energy < r.max_energy * (3 / 10 : ℚ) ∨
        (r.robot_type = RobotType.MineralCollector ∧ 5 ≤ r.minerals) ∨
        (r.robot_type = RobotType.ScientificCollector ∧ 3 ≤ r.scientific_data)) := by
  unfold Robot.should_return_to_station
  by_cases h1 : r.robot_type = RobotType.Explorer ∧ r.is_exploration_complete = true
  · rw [if_pos h1]
    simp [h1]
  · rw [if_neg h1]
    by_cases h2 : r.energy < r.max_energy * (3 / 10 : ℚ)
    · rw [if_pos h2]
      simp [h2]
    · rw [if_neg h2]
      cases ht : r.robot_type with
      | Explorer =>
        rw [ht] at h1
        have h3 : ¬ (r.is_exploration_complete = true) := fun hc => h1 ⟨rfl, hc⟩
        simp [h2, h3]
      | EnergyCollector =>
        simp [h2]
      | MineralCollector =>
        simp [h2]
      | ScientificCollector =>
        simp [h2]

theorem updateTail_mode_rts (r4 : Robot) (m0 : Map) (st0 : Station) (rng : Rng)
    (hmode : r4.mode = RobotMode.ReturnToStation)
    (hnh : ¬ (r4.x = r4.home_station_x ∧ r4.y = r4.home_station_y))
    (hpath : r4.path_to_station ≠ []) :
    ((r4.updateAtHome m0 st0).1.updateMode m0 (r4.updateAtHome m0 st0).2 rng).1.mode
      = RobotMode.ReturnToStation := by
  rw [updateAtHome_not_home r4 m0 st0 hnh]
  dsimp only
  simp only [Robot.updateMode]
  rw [hmode]
  dsimp only
  rcases hp : r4.path_to_station with _ | ⟨next, rest⟩
  · exact absurd hp hpath
  · rfl

/-- C7: the return trigger fires exactly when the energy is below 30 percent
of capacity, or the inventory is at its cap (5 minerals, 3 data units; the
energy role has no cap trigger), or an Explorer has completed its private
map; and a MineralCollector that is away from its station with 5 or more
minerals (and a route home exists) has its mode set to `ReturnToStation` by
its next update, regardless of its energy level or of remaining resources. -/
theorem return_trigger (r : Robot) (m : Map) (st : Station) (rng : Rng) :
    (r.should_return_to_station = true ↔
      ((r.robot_type = RobotType.Explorer ∧ r.is_exploration_complete = true) ∨
        r.energy < r.max_energy * (3 / 10 : ℚ) ∨
        (r.robot_type = RobotType.MineralCollector ∧ 5 ≤ r.minerals) ∨
        (r.robot_type = RobotType.ScientificCollector ∧ 3 ≤ r.scientific_data))) ∧
    (r.robot_type = RobotType.MineralCollector → 5 ≤ r.minerals →
      (r.x ≠ r.home_station_x ∨ r.y ≠ r.home_station_y) →
      find_path m (r.x, r.y) (r.home_station_x, r.home_station_y) ≠ [] →
      (r.update m st rng).1.mode = RobotMode.ReturnToStation) := by
  refine ⟨should_return_iff r, ?_⟩
  intro ht hmin haway hpath
  simp only [Robot.update]
  split
  · rename_i hcond
    rw [ht] at hcond
    exact absurd hcond.1 (by decide)
  · split
    · dsimp only
      apply gateToStation_mode_away
      exact haway
    · split
      · dsimp only
        apply gateToStation_mode_away
        exact haway
      · split
        · -- the return trigger fired: the robot is planned home
          split
          · rename_i hc4
            simp [Robot.plan_path_to_station] at hc4
          · refine updateTail_mode_rts _ m st rng rfl ?_ ?_
            · intro hcon
              rcases haway with ha | ha
              · exact ha hcon.1
              · exact ha hcon.2
            · exact hpath
        · -- contradiction: the trigger must fire for this robot
          rename_i hns
          exact (hns ((should_return_iff _).mpr
            (Or.inr (Or.inr (Or.inl ⟨ht, hmin⟩))))).elim

/-- A mineral collector away from its station (home `(10, 10)`, standing at
`(11, 10)`) carrying a full load of 5 minerals. -/
def testRobotAway : Robot :=
  { Robot.new_with_memory 11 10 RobotType.MineralCollector 2 10 10 (fun _ _ => defaultTerrain) with
      minerals := 5 }

/-- Witness for `return_trigger`: the loaded collector away from home
triggers the return policy, and its next update sets `ReturnToStation`. -/
theorem return_trigger_witness :
    testRobotAway.should_return_to_station = true ∧
    (testRobotAway.update testMapEmpty Station.new testRng).1.mode
      = RobotMode.ReturnToStation :=
  ⟨(return_trigger testRobotAway testMapEmpty Station.new testRng).1.mpr
      (Or.inr (Or.inr (Or.inl ⟨by decide, by decide⟩))),
    (return_trigger testRobotAway testMapEmpty Station.new testRng).2
      (by decide) (by decide) (by decide) (by decide)⟩

/-- C6: `consume_resource` only downgrades and is idempotent: one call turns
an in-bounds resource tile into `Empty`, a second call on the same coordinate
is a no-op, and a call on a non-resource tile is a no-op; and the harvest is
credited only on the first collection of a tile: a mineral collector gains
exactly one mineral and the tile it stands on becomes `Empty`, so collecting
again there gains nothing; an energy collector below capacity also empties
its tile and a second collection there never increases its energy. -/
theorem consume_idempotent_credit_once (m : Map) (x y : Nat) (r : Robot) (rng rng2 : Rng) :
    ((m.get_tile x y = TileType.Energy ∨ m.get_tile x y = TileType.Mineral ∨
        m.get_tile x y = TileType.Scientific) →
      (m.consume_resource x y).get_tile x y = TileType.Empty) ∧
    ((m.consume_resource x y).consume_resource x y = m.consume_resource x y) ∧
    ((m.get_tile x y = TileType.Empty ∨ m.get_tile x y = TileType.Obstacle) →
      m.consume_resource x y = m) ∧
    (r.robot_type = RobotType.MineralCollector → m.get_tile r.x r.y = TileType.Mineral →
      (r.collect_resources m rng).1.minerals = r.minerals + 1 ∧
      (r.collect_resources m rng).2.get_tile (r.collect_resources m rng).1.x
        (r.collect_resources m rng).1.y = TileType.Empty ∧
      ((r.collect_resources m rng).1.collect_resources
        (r.collect_resources m rng).2 rng2).1.minerals
        = (r.collect_resources m rng).1.minerals) ∧
    (r.robot_type = RobotType.EnergyCollector → m.get_tile r.x r.y = TileType.Energy →
      r.energy < r.max_energy →
      (r.collect_resources m rng).2.get_tile (r.collect_resources m rng).1.x
        (r.collect_resources m rng).1.y = TileType.Empty ∧
      ((r.collect_resources m rng).1.collect_resources
        (r.collect_resources m rng).2 rng2).1.energy
        ≤ (r.collect_resources m rng).1.energy) := by
  refine ⟨fun h => consume_get_tile_empty h, consume_idem m x y,
    fun h => consume_noop h, ?_, ?_⟩
  · intro ht hm
    obtain ⟨h1, hx, hy, hrt, hen, h2⟩ := collect_mineral_spec r m rng ht hm
    have hE : (r.collect_resources m rng).2.get_tile (r.collect_resources m rng).1.x
        (r.collect_resources m rng).1.y = TileType.Empty := by
      rw [h2, hx, hy]
      exact consume_get_tile_empty (Or.inr (Or.inl hm))
    exact ⟨h1, hE, (collect_on_empty _ _ rng2 hE).1⟩
  · intro ht hm hlt
    obtain ⟨hx, hy, hrt, h2⟩ := collect_energy_first_spec r m rng ht hm hlt
    have hE : (r.collect_resources m rng).2.get_tile (r.collect_resources m rng).1.x
        (r.collect_resources m rng).1.y = TileType.Empty := by
      rw [h2, hx, hy]
      exact consume_get_tile_empty (Or.inl hm)
    exact ⟨hE, (collect_on_empty _ _ rng2 hE).2.2⟩

/-- The all-empty test map with a single mineral on the station cell. -/
def testMapMineral : Map :=
  { tiles := fun yy xx => if yy = 10 ∧ xx = 10 then TileType.Mineral else TileType.Empty,
    station_x := 10, station_y := 10 }

/-- Witness for `consume_idempotent_credit_once`: the mineral on `(10, 10)`
is consumed to `Empty`, consuming the empty `(3, 3)` is a no-op, and the
collector standing there is credited exactly once. -/
theorem consume_idempotent_credit_once_witness :
    (testMapMineral.consume_resource 10 10).get_tile 10 10 = TileType.Empty ∧
    testMapMineral.consume_resource 3 3 = testMapMineral ∧
    (testRobotHome.collect_resources testMapMineral testRng).1.minerals
      = testRobotHome.minerals + 1 ∧
    ((testRobotHome.collect_resources testMapMineral testRng).1.collect_resources
      (testRobotHome.collect_resources testMapMineral testRng).2 testRng).1.minerals
      = (testRobotHome.collect_resources testMapMineral testRng).1.minerals :=
  ⟨(consume_idempotent_credit_once testMapMineral 10 10 testRobotHome testRng testRng).1
      (Or.inr (Or.inl (by decide))),
    (consume_idempotent_credit_once testMapMineral 3 3 testRobotHome testRng testRng).2.2.1
      (Or.inl (by decide)),
    ((consume_idempotent_credit_once testMapMineral 10 10 testRobotHome testRng
        testRng).2.2.2.1 (by decide) (by decide)).1,
    ((consume_idempotent_credit_once testMapMineral 10 10 testRobotHome testRng
        testRng).2.2.2.1 (by decide) (by decide)).2.2⟩

end Ereea
